import Mathlib

/-!
# The Stella copying collector (`src/garbage_collector.cpp`)

A shallow embedding of `stella::garbage_collector`: the two-space heap, the
bump allocator `allocate`, the forwarding core `forward` / `chase`, the
collection driver `collect`, the incremental scan `incremental_forward`, the
read barrier and the root stack.

Conventions of the embedding.

* Pointers and `size_t` values are natural numbers below `2 ^ 64`; every
  pointer or `size_t` operation of the source is taken modulo `2 ^ 64`
  (`wadd`, `wsub`, `wmul`).
* The address space is one map from the address of a slot (an object header
  or a pointer-sized field or a root variable) to the value kept there. Two
  accesses either name the same slot or disjoint slots; this is the case for
  objects laid out at multiples of the pointer size.
* `runtime.h` and `gc.h` are not part of the collector sources; what the
  collector takes from them is the record `Runtime`.
* The loops of the source whose exit depends on the heap contents take a
  `fuel` argument and return `none` when it runs out.
-/

namespace Stella

/-- Number of values of a `size_t` and of an object pointer. -/
def WORD : Nat := 2 ^ 64

/-- Addition of `size_t` values and of a pointer and an offset. -/
def wadd (a b : Nat) : Nat := (a + b) % WORD

/-- Subtraction of `size_t` values and of an offset from a pointer. -/
def wsub (a b : Nat) : Nat := (a + (WORD - b % WORD)) % WORD

/-- Multiplication of `size_t` values. -/
def wmul (a b : Nat) : Nat := (a * b) % WORD

/-- What the collector uses from `runtime.h` and `gc.h`: the constant
`MAX_ALLOC_SIZE`, the alignment and size of `stella_object`, the size of a
pointer and the macro `STELLA_OBJECT_HEADER_FIELD_COUNT`. -/
structure Runtime where
  MAX_ALLOC_SIZE : Nat
  alignof_stella_object : Nat
  sizeof_stella_object : Nat
  sizeof_pointer : Nat
  STELLA_OBJECT_HEADER_FIELD_COUNT : Nat → Nat

/-- The constant `REGION_SIZE` of `garbage_collector.h`. -/
def REGION_SIZE (rt : Runtime) : Nat :=
  rt.MAX_ALLOC_SIZE - rt.MAX_ALLOC_SIZE % rt.alignof_stella_object

/-- The constant `RECORDS_TO_FORWARD` of `garbage_collector.h`. -/
def RECORDS_TO_FORWARD : Nat := 16

/-- The expression `sizeof(stella_object) + FIELD_COUNT(header) * sizeof(void*)`. -/
def object_size (rt : Runtime) (header : Nat) : Nat :=
  wadd rt.sizeof_stella_object (wmul (rt.STELLA_OBJECT_HEADER_FIELD_COUNT header) rt.sizeof_pointer)

/-- Address of `p->object_fields[i]`: the field array starts right after the header. -/
def field_addr (rt : Runtime) (p i : Nat) : Nat :=
  wadd (wadd p rt.sizeof_stella_object) (wmul i rt.sizeof_pointer)

/-- The data members of `garbage_collector`, together with the memory they point into. -/
structure garbage_collector where
  mem : Nat → Nat
  roots_ : List Nat
  from_space_ : Nat
  to_space_ : Nat
  scan_ : Nat
  next_ : Nat
  limit_ : Nat
  total_allocated_bytes_cnt_ : Nat
  total_allocated_objects_cnt_ : Nat
  current_allocated_bytes_cnt_ : Nat
  current_allocated_objects_cnt_ : Nat
  total_cycles_cnt_ : Nat
  maximum_resident_bytes_cnt_ : Nat
  maximum_resident_objects_cnt_ : Nat
  reads_cnt_ : Nat
  writes_cnt_ : Nat
  read_barrier_triggers_cnt_ : Nat

/-- The exceptions of the collector, and the one undefined call it can make
(`roots_.back()` on an empty deque). -/
inductive Failure where
  | bad_alloc
  | invalid_argument
  | undefined_behaviour
  deriving DecidableEq

deriving instance DecidableEq for Except

/-- A store of one slot. -/
def garbage_collector.store (s : garbage_collector) (a v : Nat) : garbage_collector :=
  { s with mem := fun x => if x = a then v else s.mem x }

/-- The default constructor: null pointers, zero counters, no roots. -/
def garbage_collector.new (mem : Nat → Nat) : garbage_collector :=
  { mem := mem, roots_ := [], from_space_ := 0, to_space_ := 0, scan_ := 0, next_ := 0,
    limit_ := 0, total_allocated_bytes_cnt_ := 0, total_allocated_objects_cnt_ := 0,
    current_allocated_bytes_cnt_ := 0, current_allocated_objects_cnt_ := 0,
    total_cycles_cnt_ := 0, maximum_resident_bytes_cnt_ := 0,
    maximum_resident_objects_cnt_ := 0, reads_cnt_ := 0, writes_cnt_ := 0,
    read_barrier_triggers_cnt_ := 0 }

/-- The method `init`; `heap` is the address of the buffer of `2 * REGION_SIZE` bytes. -/
def init (rt : Runtime) (s : garbage_collector) (heap : Nat) : garbage_collector :=
  { s with
    from_space_ := heap
    to_space_ := wadd heap (REGION_SIZE rt)
    scan_ := heap
    next_ := heap
    limit_ := wadd heap (REGION_SIZE rt) }

/-- The method `points_to`. -/
def points_to (rt : Runtime) (p space : Nat) : Bool :=
  decide (p ≥ space) && decide (p < wadd space (REGION_SIZE rt))

/-- The `for` loop of `chase`, from index `i` on, with the candidate `r` found so far. -/
def chase_fields (rt : Runtime) :
    Nat → garbage_collector → Nat → Nat → Nat → Nat → Option (garbage_collector × Nat)
  | 0, _, _, _, _, _ => none
  | fuel + 1, s, p, q, i, r =>
    if i < rt.STELLA_OBJECT_HEADER_FIELD_COUNT (s.mem p) then
      let s1 := s.store (field_addr rt q i) (s.mem (field_addr rt p i))
      let v := s1.mem (field_addr rt q i)
      let r1 :=
        if points_to rt v s1.to_space_
            && !points_to rt (s1.mem (field_addr rt v 0)) s1.from_space_ then v else r
      chase_fields rt fuel s1 p q (i + 1) r1
    else some (s, r)

/-- The method `chase`: one round of the `do ... while (p)` loop per unit of fuel. -/
def chase (rt : Runtime) : Nat → garbage_collector → Nat → Option garbage_collector
  | 0, _, _ => none
  | fuel + 1, s, p =>
    let s1 := { s with
      current_allocated_bytes_cnt_ :=
        wadd s.current_allocated_bytes_cnt_ (object_size rt (s.mem p))
      current_allocated_objects_cnt_ := wadd s.current_allocated_objects_cnt_ 1 }
    let q := s1.next_
    let s2 := { s1 with next_ := wadd s1.next_ (object_size rt (s1.mem p)) }
    let s3 := s2.store q (s2.mem p)
    match chase_fields rt (fuel + 1) s3 p q 0 0 with
    | none => none
    | some (s4, r) =>
      let s5 := s4.store (field_addr rt p 0) q
      if r ≠ 0 then chase rt fuel s5 r else some s5

/-- The method `forward`: the state after the call and the pointer returned. -/
def forward (rt : Runtime) (fuel : Nat) (s : garbage_collector) (p : Nat) :
    Option (garbage_collector × Nat) :=
  if points_to rt p s.to_space_ then
    if points_to rt (s.mem (field_addr rt p 0)) s.from_space_ then
      some (s, s.mem (field_addr rt p 0))
    else
      match chase rt fuel s p with
      | none => none
      | some s1 => some (s1, s1.mem (field_addr rt p 0))
  else some (s, p)

/-- The loop over `roots_` of `collect`: `*root = forward(*root)`, front to back. -/
def forward_roots (rt : Runtime) (fuel : Nat) :
    List Nat → garbage_collector → Option garbage_collector
  | [], s => some s
  | root :: rest, s =>
    match forward rt fuel s (s.mem root) with
    | none => none
    | some (s1, v) => forward_roots rt fuel rest (s1.store root v)

/-- The method `collect`. -/
def collect (rt : Runtime) (fuel : Nat) (s : garbage_collector) : Option garbage_collector :=
  let s1 := { s with
    current_allocated_bytes_cnt_ := 0
    current_allocated_objects_cnt_ := 0
    total_cycles_cnt_ := wadd s.total_cycles_cnt_ 1
    from_space_ := s.to_space_
    to_space_ := s.from_space_
    scan_ := s.to_space_
    next_ := s.to_space_
    limit_ := wadd s.to_space_ (REGION_SIZE rt) }
  forward_roots rt fuel s1.roots_ s1

/-- The `for` loop of `incremental_forward` over the fields of `object`, from index `i` on. -/
def forward_fields (rt : Runtime) :
    Nat → garbage_collector → Nat → Nat → Option garbage_collector
  | 0, _, _, _ => none
  | fuel + 1, s, object, i =>
    if i < rt.STELLA_OBJECT_HEADER_FIELD_COUNT (s.mem object) then
      match forward rt fuel s (s.mem (field_addr rt object i)) with
      | none => none
      | some (s1, v) => forward_fields rt fuel (s1.store (field_addr rt object i) v) object (i + 1)
    else some s

/-- The `while` loop of `incremental_forward`; `budget` is
`RECORDS_TO_FORWARD - forwarded_records`. -/
def incremental_forward_loop (rt : Runtime) (fuel : Nat) :
    Nat → garbage_collector → Option garbage_collector
  | 0, s => some s
  | budget + 1, s =>
    if s.scan_ < s.next_ then
      let object := s.scan_
      match forward_fields rt fuel s object 0 with
      | none => none
      | some s1 =>
        incremental_forward_loop rt fuel budget
          { s1 with scan_ := wadd s1.scan_ (object_size rt (s1.mem object)) }
    else some s

/-- The method `incremental_forward`. -/
def incremental_forward (rt : Runtime) (fuel : Nat) (s : garbage_collector) :
    Option garbage_collector :=
  incremental_forward_loop rt fuel RECORDS_TO_FORWARD s

/-- The method `allocate`: the pointer returned or the exception thrown, and the state left. -/
def allocate (rt : Runtime) (fuel : Nat) (s : garbage_collector) (size : Nat) :
    Option (Except Failure Nat × garbage_collector) :=
  match (if s.next_ ≥ wsub s.limit_ size then collect rt fuel s
         else incremental_forward rt fuel s) with
  | none => none
  | some s1 =>
    if s1.next_ ≥ wsub s1.limit_ size then some (.error .bad_alloc, s1)
    else
      let s2 := { s1 with
        total_allocated_bytes_cnt_ := wadd s1.total_allocated_bytes_cnt_ size
        total_allocated_objects_cnt_ := wadd s1.total_allocated_objects_cnt_ 1
        current_allocated_bytes_cnt_ := wadd s1.current_allocated_bytes_cnt_ size
        current_allocated_objects_cnt_ := wadd s1.current_allocated_objects_cnt_ 1 }
      let s3 :=
        if s2.current_allocated_bytes_cnt_ > s2.maximum_resident_bytes_cnt_ then
          { s2 with
            maximum_resident_bytes_cnt_ := s2.current_allocated_bytes_cnt_
            maximum_resident_objects_cnt_ := s2.current_allocated_objects_cnt_ }
        else s2
      let s4 := { s3 with limit_ := wsub s3.limit_ size }
      some (.ok s4.limit_, s4)

/-- The method `read_barrier`. -/
def read_barrier (rt : Runtime) (fuel : Nat) (s : garbage_collector) (object field_index : Nat) :
    Option garbage_collector :=
  let s1 := { s with reads_cnt_ := wadd s.reads_cnt_ 1 }
  match forward rt fuel s1 (s1.mem (field_addr rt object field_index)) with
  | none => none
  | some (s2, v) => some (s2.store (field_addr rt object field_index) v)

/-- The method `write_barrier`. -/
def write_barrier (s : garbage_collector) : garbage_collector :=
  { s with writes_cnt_ := wadd s.writes_cnt_ 1 }

/-- The method `push_root`: `roots_.push_back(object)`. -/
def push_root (s : garbage_collector) (object : Nat) : garbage_collector :=
  { s with roots_ := s.roots_ ++ [object] }

/-- The method `pop_root`: the outcome and the state left; the back of the deque is the
last element of the list. -/
def pop_root (s : garbage_collector) (object : Nat) : Except Failure Unit × garbage_collector :=
  match s.roots_.getLast? with
  | none => (.error .undefined_behaviour, s)
  | some back =>
    if back ≠ object then (.error .invalid_argument, s)
    else (.ok (), { s with roots_ := s.roots_.dropLast })

/-- What `chase`, `forward` and the loops built from them leave alone: the roots, the two
space bases, `limit_` and every counter other than the `current_*` pair. -/
structure forwarding_frame (s t : garbage_collector) : Prop where
  roots_ : t.roots_ = s.roots_
  from_space_ : t.from_space_ = s.from_space_
  to_space_ : t.to_space_ = s.to_space_
  limit_ : t.limit_ = s.limit_
  total_allocated_bytes_cnt_ : t.total_allocated_bytes_cnt_ = s.total_allocated_bytes_cnt_
  total_allocated_objects_cnt_ : t.total_allocated_objects_cnt_ = s.total_allocated_objects_cnt_
  total_cycles_cnt_ : t.total_cycles_cnt_ = s.total_cycles_cnt_
  maximum_resident_bytes_cnt_ : t.maximum_resident_bytes_cnt_ = s.maximum_resident_bytes_cnt_
  maximum_resident_objects_cnt_ :
    t.maximum_resident_objects_cnt_ = s.maximum_resident_objects_cnt_
  reads_cnt_ : t.reads_cnt_ = s.reads_cnt_
  writes_cnt_ : t.writes_cnt_ = s.writes_cnt_

/-! ## Concrete runs

A 64-bit runtime with `MAX_ALLOC_SIZE = 64`, an 8-byte header slot, 8-byte pointers and the
field count kept in bits 4 to 7 of the header; the heap buffer is at address 4096, the
mutator keeps its root variables at addresses 512 and 520, and memory starts zeroed.
Header 16 announces one field, header 32 two fields; 7 is a value that is not an address
of the heap. -/

/-- A runtime instance: `REGION_SIZE` is 64, objects are a header slot and 8-byte fields. -/
def rt64 : Runtime :=
  { MAX_ALLOC_SIZE := 64, alignof_stella_object := 8, sizeof_stella_object := 8,
    sizeof_pointer := 8, STELLA_OBJECT_HEADER_FIELD_COUNT := fun h => (h / 16) % 16 }

/-- A call of `allocate` that returns normally: the pointer and the state left. -/
def alloc_ok (rt : Runtime) (fuel : Nat) (s : garbage_collector) (size : Nat) :
    Option (Nat × garbage_collector) :=
  match allocate rt fuel s size with
  | some (.ok p, s1) => some (p, s1)
  | _ => none

/-- The collector right after `init`, with the heap buffer at 4096 and zeroed memory. -/
def fresh : garbage_collector := init rt64 (garbage_collector.new (fun _ => 0)) 4096

/-- The mutator allocates `a` (two fields), `b` and `c` (one field each), initialises them
as the tree `a.fields = [b, c]` with leaves holding 7, and registers the variable at 512,
which holds `a`, as a root. -/
def tree_rooted : Option garbage_collector := do
  let (a, s) ← alloc_ok rt64 8 fresh 24
  let (b, s) ← alloc_ok rt64 8 s 16
  let (c, s) ← alloc_ok rt64 8 s 16
  let s := s.store a 32
  let s := s.store (field_addr rt64 a 0) b
  let s := s.store (field_addr rt64 a 1) c
  let s := s.store b 16
  let s := s.store (field_addr rt64 b 0) 7
  let s := s.store c 16
  let s := s.store (field_addr rt64 c 0) 7
  let s := s.store 512 a
  some (push_root s 512)

/-- After `tree_rooted`: one more `allocate(size)`, which collects and returns normally
for the sizes 8 and 16. -/
def tree_alloc (size : Nat) : Option garbage_collector := do
  let s ← tree_rooted
  let (_, s) ← alloc_ok rt64 8 s size
  some s

/-- After `tree_alloc 16`: the read barrier on field 0 of the object the root holds. -/
def tree_alloc_read : Option garbage_collector := do
  let s ← tree_alloc 16
  read_barrier rt64 8 s (s.mem 512) 0

/-- The four heap pointers `(from_space_, scan_, next_, limit_)` of a state. -/
def pointers (s : garbage_collector) : Nat × Nat × Nat × Nat :=
  (s.from_space_, s.scan_, s.next_, s.limit_)

/-- The object a root variable holds, as the mutator sees it: the pointer, the header and
the first two fields. -/
def root_view (rt : Runtime) (s : garbage_collector) (root : Nat) : Nat × Nat × Nat × Nat :=
  (s.mem root, s.mem (s.mem root), s.mem (field_addr rt (s.mem root) 0),
    s.mem (field_addr rt (s.mem root) 1))

/-- The value of `forward(p)` and the value of `forward` applied to it in the state the
first call leaves. -/
def forward_twice (rt : Runtime) (fuel : Nat) (s : garbage_collector) (p : Nat) :
    Option (Nat × Nat) := do
  let (s1, v) ← forward rt fuel s p
  let (_, w) ← forward rt fuel s1 v
  some (v, w)

/-- The mutator allocates one object `a` with two fields, `a.fields = [7, a]`, and
registers the variable at 512, which holds `a`, as a root. -/
def self_rooted : Option garbage_collector := do
  let (a, s) ← alloc_ok rt64 8 fresh 24
  let s := s.store a 32
  let s := s.store (field_addr rt64 a 0) 7
  let s := s.store (field_addr rt64 a 1) a
  let s := s.store 512 a
  some (push_root s 512)

/-- The first cycle is spent on a 56-byte object that is dropped. In the second cycle the
mutator allocates `x` (`x.fields = [x, 7]`) and `y` (`y.fields = [y]`) and registers the
variables at 512 and 520, which hold `x` and `y`, as roots. -/
def two_selves_rooted : Option garbage_collector := do
  let (_, s) ← alloc_ok rt64 8 fresh 56
  let (x, s) ← alloc_ok rt64 8 s 24
  let (y, s) ← alloc_ok rt64 8 s 16
  let s := s.store x 32
  let s := s.store (field_addr rt64 x 0) x
  let s := s.store (field_addr rt64 x 1) 7
  let s := s.store y 16
  let s := s.store (field_addr rt64 y 0) y
  let s := s.store 512 x
  let s := s.store 520 y
  some (push_root (push_root s 512) 520)

/-- The first cycle is spent on a 56-byte object that is dropped. In the second cycle the
mutator allocates `a` (`a.fields = [b, a]`) and `b` (`b.fields = [b]`), registers the
variable at 512, which holds `a`, as a root, allocates 16 bytes that it drops and then 8
bytes (this call collects and returns normally), and reads field 0 of the root object
through the read barrier. -/
def pair_collected : Option garbage_collector := do
  let (_, s) ← alloc_ok rt64 8 fresh 56
  let (a, s) ← alloc_ok rt64 8 s 24
  let (b, s) ← alloc_ok rt64 8 s 16
  let s := s.store a 32
  let s := s.store (field_addr rt64 a 0) b
  let s := s.store (field_addr rt64 a 1) a
  let s := s.store b 16
  let s := s.store (field_addr rt64 b 0) b
  let s := s.store 512 a
  let s := push_root s 512
  let (_, s) ← alloc_ok rt64 8 s 16
  let (_, s) ← alloc_ok rt64 8 s 8
  read_barrier rt64 8 s (s.mem 512) 0

/-- After `pair_collected`: the read barrier on field 0 of the object that field 0 of the
root object holds. -/
def pair_read : Option garbage_collector := do
  let s ← pair_collected
  read_barrier rt64 8 s (s.mem (field_addr rt64 (s.mem 512) 0)) 0

/-- The collector after one `allocate(56)` on the fresh heap: 8 bytes are free. -/
def almost_full : Option garbage_collector := do
  let (_, s) ← alloc_ok rt64 8 fresh 56
  some s

/-- After `self_rooted`: `collect`, then the read barrier on fields 0 and 1 of the object
the root holds. -/
def self_collected_read : Option garbage_collector := do
  let s ← self_rooted
  let s ← collect rt64 8 s
  let s ← read_barrier rt64 8 s (s.mem 512) 0
  read_barrier rt64 8 s (s.mem 512) 1

/-- The state `collect` leaves when run on `fresh`: the spaces are swapped and one cycle
is counted. -/
def fresh_flipped : garbage_collector :=
  { fresh with
    total_cycles_cnt_ := 1
    from_space_ := 4160
    to_space_ := 4096
    scan_ := 4160
    next_ := 4160
    limit_ := 4224 }

/-- A collector whose root stack is `[512, 520]`. -/
def two_roots : garbage_collector := push_root (push_root fresh 512) 520

/-- The assignments of `collect` that come before its loop over the roots: the `current_*`
counters are reset, the cycle is counted and the spaces are swapped. -/
def collect_flip (rt : Runtime) (s : garbage_collector) : garbage_collector :=
  { s with
    current_allocated_bytes_cnt_ := 0
    current_allocated_objects_cnt_ := 0
    total_cycles_cnt_ := wadd s.total_cycles_cnt_ 1
    from_space_ := s.to_space_
    to_space_ := s.from_space_
    scan_ := s.to_space_
    next_ := s.to_space_
    limit_ := wadd s.to_space_ (REGION_SIZE rt) }

/-- A run of the collector: `init` on a newly constructed collector, followed by any
sequence of calls of the public methods and of stores by the mutator. The list keeps the
pairs `(current_allocated_bytes_cnt_, current_allocated_objects_cnt_)` seen at the end of
each call of `allocate` that returned normally, the latest first. -/
inductive Run (rt : Runtime) : garbage_collector → List (Nat × Nat) → Prop where
  | init (mem : Nat → Nat) (heap : Nat) : Run rt (init rt (garbage_collector.new mem) heap) []
  | allocate_ok {s t : garbage_collector} {h : List (Nat × Nat)} (fuel size p : Nat) :
      Run rt s h → allocate rt fuel s size = some (Except.ok p, t) →
      Run rt t ((t.current_allocated_bytes_cnt_, t.current_allocated_objects_cnt_) :: h)
  | allocate_throws {s t : garbage_collector} {h : List (Nat × Nat)} (fuel size : Nat)
      (e : Failure) :
      Run rt s h → allocate rt fuel s size = some (Except.error e, t) → Run rt t h
  | read_barrier {s t : garbage_collector} {h : List (Nat × Nat)}
      (fuel object field_index : Nat) :
      Run rt s h → read_barrier rt fuel s object field_index = some t → Run rt t h
  | write_barrier {s : garbage_collector} {h : List (Nat × Nat)} :
      Run rt s h → Run rt (write_barrier s) h
  | push_root {s : garbage_collector} {h : List (Nat × Nat)} (object : Nat) :
      Run rt s h → Run rt (push_root s object) h
  | pop_root {s : garbage_collector} {h : List (Nat × Nat)} (object : Nat) :
      Run rt s h → Run rt (pop_root s object).2 h
  | store {s : garbage_collector} {h : List (Nat × Nat)} (a v : Nat) :
      Run rt s h → Run rt (s.store a v) h

/-- The byte accounting of the collector, in `size_t` arithmetic:
`current_allocated_bytes == (next - from_space) + (from_space + REGION_SIZE - limit)`. -/
def bytes_accounted (rt : Runtime) (s : garbage_collector) : Prop :=
  s.current_allocated_bytes_cnt_
    = wadd (wsub s.next_ s.from_space_) (wsub (wadd s.from_space_ (REGION_SIZE rt)) s.limit_)

/-- The largest value of a list of counter readings (0 for no reading). -/
def largest : List Nat → Nat
  | [] => 0
  | x :: xs => max x (largest xs)

/-- The residency pair `allocate` maintains, from the readings at the end of the calls that
returned normally (latest first): a reading replaces the pair when its bytes exceed the
bytes of the pair kept so far. -/
def residency_peak : List (Nat × Nat) → Nat × Nat
  | [] => (0, 0)
  | x :: older => if x.1 > (residency_peak older).1 then x else residency_peak older

/-- A runtime instance with `REGION_SIZE = 256`, otherwise as `rt64`. -/
def rt256 : Runtime :=
  { MAX_ALLOC_SIZE := 256, alignof_stella_object := 8, sizeof_stella_object := 8,
    sizeof_pointer := 8, STELLA_OBJECT_HEADER_FIELD_COUNT := fun h => (h / 16) % 16 }

/-- The collector right after `init` under `rt256`, heap buffer at 4096, zeroed memory,
no roots. -/
def fresh256 : garbage_collector := init rt256 (garbage_collector.new (fun _ => 0)) 4096

/-- The state after `n` calls `allocate(size)` in a row that all return normally. -/
def alloc_times (rt : Runtime) (fuel size : Nat) :
    Nat → garbage_collector → Option garbage_collector
  | 0, s => some s
  | n + 1, s =>
    match alloc_ok rt fuel s size with
    | none => none
    | some (_, s1) => alloc_times rt fuel size n s1

/-- The counters `(total_cycles_cnt_, current_allocated_bytes_cnt_,
current_allocated_objects_cnt_)` of a state. -/
def cycle_counters (s : garbage_collector) : Nat × Nat × Nat :=
  (s.total_cycles_cnt_, s.current_allocated_bytes_cnt_, s.current_allocated_objects_cnt_)

/-- The mutator allocates `a` (two fields, at 4136) with `a.fields = [7, a]`, keeps no
root, and fills the cycle with `allocate(32)` and `allocate(8)`; the last call collects and
returns normally, which leaves `a` in to-space, not copied, with 56 free bytes in
from-space. -/
def self_unrooted : Option garbage_collector := do
  let (a, s) ← alloc_ok rt64 8 fresh 24
  let s := s.store a 32
  let s := s.store (field_addr rt64 a 0) 7
  let s := s.store (field_addr rt64 a 1) a
  let (_, s) ← alloc_ok rt64 8 s 32
  let (_, s) ← alloc_ok rt64 8 s 8
  some s

/-- The state after `allocate(56)` and `n` calls `allocate(8)` on the fresh heap; the
first `allocate(8)` collects. -/
def big_then_small (n : Nat) : Option garbage_collector := do
  let (_, s) ← alloc_ok rt64 8 fresh 56
  alloc_times rt64 8 8 n s

/-- The residency pair `(maximum_resident_bytes_cnt_, maximum_resident_objects_cnt_)`. -/
def residency (s : garbage_collector) : Nat × Nat :=
  (s.maximum_resident_bytes_cnt_, s.maximum_resident_objects_cnt_)

/-- The mutator allocates `a` (two fields, at 4136) with `a.fields = [7, a]`, keeps no
root, and calls `allocate(40)`, which fills the gap, collects and returns normally: `a` is
the only object of to-space, not copied, and 24 bytes are free in from-space. -/
def self_alone : Option garbage_collector := do
  let (a, s) ← alloc_ok rt64 8 fresh 24
  let s := s.store a 32
  let s := s.store (field_addr rt64 a 0) 7
  let s := s.store (field_addr rt64 a 1) a
  let (_, s) ← alloc_ok rt64 8 s 40
  some s

/-- After `tree_alloc 8`: the state inside `collect` right after the swap, before any
root is forwarded. -/
def tree_flipped : Option garbage_collector := (tree_alloc 8).map (collect_flip rt64)

/-- The header and the first two field slots of the object at `p`. -/
def object_view (rt : Runtime) (s : garbage_collector) (p : Nat) : Nat × Nat × Nat :=
  (s.mem p, s.mem (field_addr rt p 0), s.mem (field_addr rt p 1))

/-- The state `allocate(56)` leaves on the fresh heap. -/
def fresh_56 : garbage_collector :=
  { fresh with
    limit_ := 4104
    total_allocated_bytes_cnt_ := 56
    total_allocated_objects_cnt_ := 1
    current_allocated_bytes_cnt_ := 56
    current_allocated_objects_cnt_ := 1
    maximum_resident_bytes_cnt_ := 56
    maximum_resident_objects_cnt_ := 1 }

/-- The read barrier on field 0 of `k` objects in turn, the first at `q`, each `step`
bytes after the one before. -/
def read_chain (rt : Runtime) (fuel : Nat) :
    Nat → garbage_collector → Nat → Nat → Option garbage_collector
  | 0, s, _, _ => some s
  | k + 1, s, q, step =>
    match read_barrier rt fuel s q 0 with
    | none => none
    | some s1 => read_chain rt fuel k s1 (q + step) step

/-- The value field 0 of a chain object holds: the address of the next object of the
chain, or `v` for the last object. -/
def link_target (v : Nat) : List Nat → Nat
  | [] => v
  | o :: _ => o

/-- A linear chain in memory `m`: every object of the list has one field, field 0 of each
object holds the address of the next one, and field 0 of the last holds `v`. -/
def chain_links (rt : Runtime) (m : Nat → Nat) (v : Nat) : List Nat → Prop
  | [] => True
  | o :: rest =>
    rt.STELLA_OBJECT_HEADER_FIELD_COUNT (m o) = 1 ∧
      m (o + rt.sizeof_stella_object) = link_target v rest ∧ chain_links rt m v rest

/-- The copies of a chain as `chase` leaves them in memory `m`, the first at `n` and each
right after the one before: the header of each copy is the header the original has in
`m0`, field 0 of the copy still holds the address of the next original (`v` for the
last), and field 0 of the original holds the address of its copy. -/
def chain_copied (rt : Runtime) (m0 m : Nat → Nat) (v : Nat) : List Nat → Nat → Prop
  | [], _ => True
  | o :: rest, n =>
    m n = m0 o ∧ m (n + rt.sizeof_stella_object) = link_target v rest ∧
      m (o + rt.sizeof_stella_object) = n ∧
      chain_copied rt m0 m v rest (n + (rt.sizeof_stella_object + rt.sizeof_pointer))

/-- The copies of a chain once the read barrier has run on each of them, the first at `n`
and each right after the one before: the header of each copy is the header the original
has in `m0`, and field 0 of each copy holds the address of the next copy (`v` for the
last). -/
def chain_relinked (rt : Runtime) (m0 m : Nat → Nat) (v : Nat) : List Nat → Nat → Prop
  | [], _ => True
  | o :: rest, n =>
    m n = m0 o ∧
      m (n + rt.sizeof_stella_object)
        = (if rest = [] then v else n + (rt.sizeof_stella_object + rt.sizeof_pointer)) ∧
      chain_relinked rt m0 m v rest (n + (rt.sizeof_stella_object + rt.sizeof_pointer))

/-- The first assignments of a round of `chase` on `p`: the `current_*` counters and
`next_` are raised by the size of `p`. -/
def chase_bump (rt : Runtime) (s : garbage_collector) (p : Nat) : garbage_collector :=
  { s with
    current_allocated_bytes_cnt_ :=
      wadd s.current_allocated_bytes_cnt_ (object_size rt (s.mem p))
    current_allocated_objects_cnt_ := wadd s.current_allocated_objects_cnt_ 1
    next_ := wadd s.next_ (object_size rt (s.mem p)) }

/-- The state a round of `chase` leaves for an object `p` with one field that does not
overlap its copy at `next_`: header and field 0 are copied there and the forwarding
pointer is installed. -/
def chase_copy_one (rt : Runtime) (s : garbage_collector) (p : Nat) : garbage_collector :=
  (((chase_bump rt s p).store s.next_ (s.mem p)).store
    (field_addr rt s.next_ 0) (s.mem (field_addr rt p 0))).store (field_addr rt p 0) s.next_

/-- The objects of the list are non-null one-field objects that lie inside the space at
`space` and do not overlap one another; `sz` is the size of a one-field object. -/
def chain_placed (rt : Runtime) (space : Nat) (os : List Nat) : Prop :=
  (∀ o ∈ os, 0 < o ∧ space ≤ o ∧
      o + (rt.sizeof_stella_object + rt.sizeof_pointer) ≤ space + REGION_SIZE rt) ∧
    os.Pairwise (fun a b =>
      a + (rt.sizeof_stella_object + rt.sizeof_pointer) ≤ b ∨
        b + (rt.sizeof_stella_object + rt.sizeof_pointer) ≤ a)

/-- The two semispaces `a` and `b` are disjoint blocks of pointer values, and the header
slot and a pointer slot have positive sizes. -/
def spaces_apart (rt : Runtime) (a b : Nat) : Prop :=
  0 < rt.sizeof_stella_object ∧ 0 < rt.sizeof_pointer ∧
    (a + REGION_SIZE rt ≤ b ∨ b + REGION_SIZE rt ≤ a) ∧
    a + REGION_SIZE rt < WORD ∧ b + REGION_SIZE rt < WORD

/-- Scenario 4 of the specification under `rt64`: the chain `A -> B -> C` of 16-byte objects
at 4144, 4128 and 4112 in the current space, field 0 of `C` holding 7, and one root slot
at 512 holding `A`. -/
def chain3 : garbage_collector :=
  push_root
    (((((((fresh.store 4144 16).store 4152 4128).store 4128 16).store 4136 4112).store
      4112 16).store 4120 7).store 512 4144) 512

/-- A runtime instance with `REGION_SIZE = 288`, otherwise as `rt64`. -/
def rt288 : Runtime :=
  { MAX_ALLOC_SIZE := 288, alignof_stella_object := 8, sizeof_stella_object := 8,
    sizeof_pointer := 8, STELLA_OBJECT_HEADER_FIELD_COUNT := fun h => (h / 16) % 16 }

/-- The collector right after `init` under `rt288`, heap buffer at 4096, zeroed memory. -/
def fresh288 : garbage_collector := init rt288 (garbage_collector.new (fun _ => 0)) 4096

/-- The mutator allocates `n` one-field objects one after the other and links them into a
chain that ends in `target`: each new object gets header 16 and field 0 holding the object
allocated before it (`target` for the first). The result is the last object allocated, the
head of the chain. -/
def alloc_linked (rt : Runtime) (fuel : Nat) :
    Nat → garbage_collector → Nat → Option (Nat × garbage_collector)
  | 0, s, target => some (target, s)
  | n + 1, s, target =>
    match alloc_ok rt fuel s 16 with
    | none => none
    | some (c, s1) =>
      alloc_linked rt fuel n ((s1.store c 16).store (field_addr rt c 0) target) c

/-- A full heap under `rt288`. The first cycle is spent on a 280-byte object that is
dropped. In the second cycle the mutator builds a chain `c1 -> ... -> c13` of one-field
objects ending in 7, two one-field objects `b1` and `b2` that each hold their own address,
and `a` with `a.fields = [b1, b2, c1]`, registers the variable at 512, which holds `a`, as
a root, and calls `allocate(16)`, which fills the gap, collects (copying `a` and the
chain, 240 bytes) and returns normally. -/
def crowded : Option garbage_collector := do
  let (_, s) ← alloc_ok rt288 20 fresh288 280
  let (c1, s) ← alloc_linked rt288 20 13 s 7
  let (b1, s) ← alloc_ok rt288 20 s 16
  let s := (s.store b1 16).store (field_addr rt288 b1 0) b1
  let (b2, s) ← alloc_ok rt288 20 s 16
  let s := (s.store b2 16).store (field_addr rt288 b2 0) b2
  let (a, s) ← alloc_ok rt288 20 s 32
  let s := s.store a 48
  let s := s.store (field_addr rt288 a 0) b1
  let s := s.store (field_addr rt288 a 1) b2
  let s := s.store (field_addr rt288 a 2) c1
  let s := s.store 512 a
  let s := push_root s 512
  let (_, s) ← alloc_ok rt288 20 s 16
  some s

/-- The bytes of the objects copied in this cycle, `next_ - from_space_`. -/
def copied_bytes (s : garbage_collector) : Nat := wsub s.next_ s.from_space_

/-- The bytes of the objects allocated since the last collection,
`from_space_ + REGION_SIZE - limit_`. -/
def allocated_bytes (rt : Runtime) (s : garbage_collector) : Nat :=
  wsub (wadd s.from_space_ (REGION_SIZE rt)) s.limit_

/-- A one-field object at 4160, in the to-space of the fresh collector, holding 7. -/
def leaf_in_to_space : garbage_collector := (fresh.store 4160 16).store 4168 7

/-! ## Frame lemmas -/

theorem forwarding_frame.refl (s : garbage_collector) : forwarding_frame s s :=
  ⟨rfl, rfl, rfl, rfl, rfl, rfl, rfl, rfl, rfl, rfl, rfl⟩

theorem forwarding_frame.trans {s t u : garbage_collector}
    (h1 : forwarding_frame s t) (h2 : forwarding_frame t u) : forwarding_frame s u :=
  ⟨h2.roots_.trans h1.roots_, h2.from_space_.trans h1.from_space_,
   h2.to_space_.trans h1.to_space_, h2.limit_.trans h1.limit_,
   h2.total_allocated_bytes_cnt_.trans h1.total_allocated_bytes_cnt_,
   h2.total_allocated_objects_cnt_.trans h1.total_allocated_objects_cnt_,
   h2.total_cycles_cnt_.trans h1.total_cycles_cnt_,
   h2.maximum_resident_bytes_cnt_.trans h1.maximum_resident_bytes_cnt_,
   h2.maximum_resident_objects_cnt_.trans h1.maximum_resident_objects_cnt_,
   h2.reads_cnt_.trans h1.reads_cnt_, h2.writes_cnt_.trans h1.writes_cnt_⟩

theorem forwarding_frame_store (s : garbage_collector) (a v : Nat) :
    forwarding_frame s (s.store a v) :=
  ⟨rfl, rfl, rfl, rfl, rfl, rfl, rfl, rfl, rfl, rfl, rfl⟩

theorem chase_fields_frame (rt : Runtime) :
    ∀ (fuel : Nat) (s : garbage_collector) (p q i r : Nat) (t : garbage_collector) (r1 : Nat),
      chase_fields rt fuel s p q i r = some (t, r1) → forwarding_frame s t := by
  intro fuel
  induction fuel with
  | zero => intro s p q i r t r1 h; simp [chase_fields] at h
  | succ n ih =>
    intro s p q i r t r1 h
    unfold chase_fields at h
    split at h
    · exact (forwarding_frame_store s _ _).trans (ih _ _ _ _ _ _ _ h)
    · simp only [Option.some.injEq, Prod.mk.injEq] at h
      rw [← h.1]
      exact forwarding_frame.refl s

theorem chase_frame (rt : Runtime) :
    ∀ (fuel : Nat) (s : garbage_collector) (p : Nat) (t : garbage_collector),
      chase rt fuel s p = some t → forwarding_frame s t := by
  intro fuel
  induction fuel with
  | zero => intro s p t h; simp [chase] at h
  | succ n ih =>
    intro s p t h
    unfold chase at h
    simp only at h
    split at h
    · exact absurd h (by simp)
    · rename_i s4 r hcf
      have h1 := chase_fields_frame rt _ _ _ _ _ _ _ _ hcf
      have h0 : forwarding_frame s s4 :=
        ⟨h1.roots_, h1.from_space_, h1.to_space_, h1.limit_, h1.total_allocated_bytes_cnt_,
         h1.total_allocated_objects_cnt_, h1.total_cycles_cnt_, h1.maximum_resident_bytes_cnt_,
         h1.maximum_resident_objects_cnt_, h1.reads_cnt_, h1.writes_cnt_⟩
      have h2 := h0.trans (forwarding_frame_store s4 (field_addr rt p 0) s.next_)
      split at h
      · exact h2.trans (ih _ _ _ h)
      · simp only [Option.some.injEq] at h
        rw [← h]
        exact h2

theorem forward_frame (rt : Runtime) (fuel : Nat) (s : garbage_collector) (p : Nat)
    (t : garbage_collector) (v : Nat) (h : forward rt fuel s p = some (t, v)) :
    forwarding_frame s t := by
  unfold forward at h
  split at h
  · split at h
    · simp only [Option.some.injEq, Prod.mk.injEq] at h
      rw [← h.1]
      exact forwarding_frame.refl s
    · split at h
      · exact absurd h (by simp)
      · rename_i s1 hc
        simp only [Option.some.injEq, Prod.mk.injEq] at h
        rw [← h.1]
        exact chase_frame rt _ _ _ _ hc
  · simp only [Option.some.injEq, Prod.mk.injEq] at h
    rw [← h.1]
    exact forwarding_frame.refl s

theorem forward_fields_frame (rt : Runtime) :
    ∀ (fuel : Nat) (s : garbage_collector) (object i : Nat) (t : garbage_collector),
      forward_fields rt fuel s object i = some t → forwarding_frame s t := by
  intro fuel
  induction fuel with
  | zero => intro s object i t h; simp [forward_fields] at h
  | succ n ih =>
    intro s object i t h
    unfold forward_fields at h
    split at h
    · split at h
      · exact absurd h (by simp)
      · rename_i s1 v hf
        exact ((forward_frame rt _ _ _ _ _ hf).trans (forwarding_frame_store s1 _ _)).trans
          (ih _ _ _ _ h)
    · simp only [Option.some.injEq] at h
      rw [← h]
      exact forwarding_frame.refl s

theorem incremental_forward_loop_frame (rt : Runtime) (fuel : Nat) :
    ∀ (budget : Nat) (s t : garbage_collector),
      incremental_forward_loop rt fuel budget s = some t → forwarding_frame s t := by
  intro budget
  induction budget with
  | zero =>
    intro s t h
    simp only [incremental_forward_loop, Option.some.injEq] at h
    rw [← h]
    exact forwarding_frame.refl s
  | succ n ih =>
    intro s t h
    unfold incremental_forward_loop at h
    split at h
    · simp only at h
      split at h
      · exact absurd h (by simp)
      · rename_i s1 hf
        have h1 := forward_fields_frame rt _ _ _ _ _ hf
        have h2 := ih _ _ h
        exact h1.trans
          ⟨h2.roots_, h2.from_space_, h2.to_space_, h2.limit_, h2.total_allocated_bytes_cnt_,
           h2.total_allocated_objects_cnt_, h2.total_cycles_cnt_,
           h2.maximum_resident_bytes_cnt_, h2.maximum_resident_objects_cnt_, h2.reads_cnt_,
           h2.writes_cnt_⟩
    · simp only [Option.some.injEq] at h
      rw [← h]
      exact forwarding_frame.refl s

theorem forward_roots_frame (rt : Runtime) (fuel : Nat) :
    ∀ (roots : List Nat) (s t : garbage_collector),
      forward_roots rt fuel roots s = some t → forwarding_frame s t := by
  intro roots
  induction roots with
  | nil =>
    intro s t h
    simp only [forward_roots, Option.some.injEq] at h
    rw [← h]
    exact forwarding_frame.refl s
  | cons root rest ih =>
    intro s t h
    unfold forward_roots at h
    split at h
    · exact absurd h (by simp)
    · rename_i s1 v hf
      exact ((forward_frame rt _ _ _ _ _ hf).trans (forwarding_frame_store s1 _ _)).trans
        (ih _ _ h)

theorem collect_total_cycles (rt : Runtime) (fuel : Nat) (s t : garbage_collector)
    (h : collect rt fuel s = some t) : t.total_cycles_cnt_ = wadd s.total_cycles_cnt_ 1 := by
  unfold collect at h
  exact (forward_roots_frame rt fuel _ _ _ h).total_cycles_cnt_

theorem incremental_forward_total_cycles (rt : Runtime) (fuel : Nat) (s t : garbage_collector)
    (h : incremental_forward rt fuel s = some t) : t.total_cycles_cnt_ = s.total_cycles_cnt_ :=
  (incremental_forward_loop_frame rt fuel _ _ _ h).total_cycles_cnt_

/-! ## What `allocate` does guarantee -/

theorem wsub_of_add_eq (a b c : Nat) (h : a + b = c) (hc : c < WORD) : wsub c b = a := by
  have hb : b < WORD := by omega
  have ha : a < WORD := by omega
  unfold wsub
  rw [Nat.mod_eq_of_lt hb]
  have e : c + (WORD - b) = a + WORD := by omega
  rw [e, Nat.add_mod_right, Nat.mod_eq_of_lt ha]

/-- Every call of `allocate` raises `total_cycles_cnt_` by one when the request does not
fit on entry, and leaves it alone otherwise, whatever the outcome of the call. -/
theorem allocate_total_cycles (rt : Runtime) (fuel : Nat) (s t : garbage_collector)
    (size : Nat) (r : Except Failure Nat) (h : allocate rt fuel s size = some (r, t)) :
    (s.next_ ≥ wsub s.limit_ size → t.total_cycles_cnt_ = wadd s.total_cycles_cnt_ 1) ∧
      (s.next_ < wsub s.limit_ size → t.total_cycles_cnt_ = s.total_cycles_cnt_) := by
  unfold allocate at h
  split at h
  · exact absurd h (by simp)
  · rename_i s1 hstep
    have hs1 : (s.next_ ≥ wsub s.limit_ size →
          s1.total_cycles_cnt_ = wadd s.total_cycles_cnt_ 1) ∧
        (s.next_ < wsub s.limit_ size → s1.total_cycles_cnt_ = s.total_cycles_cnt_) := by
      by_cases hentry : s.next_ ≥ wsub s.limit_ size
      · rw [if_pos hentry] at hstep
        exact ⟨fun _ => collect_total_cycles rt fuel s s1 hstep,
          fun hlt => absurd hentry (Nat.not_le_of_lt hlt)⟩
      · rw [if_neg hentry] at hstep
        exact ⟨fun hge => absurd hge hentry,
          fun _ => incremental_forward_total_cycles rt fuel s s1 hstep⟩
    split at h
    · simp only [Option.some.injEq, Prod.mk.injEq] at h
      rw [← h.2]
      exact hs1
    · simp only [Option.some.injEq, Prod.mk.injEq] at h
      rw [← h.2]
      simp only
      split <;> exact hs1

/-- Whenever the request fills the free gap exactly (and `limit_` is a pointer value),
`allocate` runs `collect`. -/
theorem allocate_exact_fill_runs_collect (rt : Runtime) (fuel : Nat)
    (s t : garbage_collector) (size : Nat) (r : Except Failure Nat)
    (hfill : s.next_ + size = s.limit_) (hlimit : s.limit_ < WORD)
    (h : allocate rt fuel s size = some (r, t)) :
    t.total_cycles_cnt_ = wadd s.total_cycles_cnt_ 1 :=
  (allocate_total_cycles rt fuel s t size r h).1
    (Nat.le_of_eq (wsub_of_add_eq s.next_ size s.limit_ hfill hlimit))

/-- After every call of `allocate` that returns normally, the pointer returned is the new
`limit_` and `next_` is strictly below it. -/
theorem allocate_ok_next_lt_limit (rt : Runtime) (fuel : Nat) (s t : garbage_collector)
    (size p : Nat) (h : allocate rt fuel s size = some (Except.ok p, t)) :
    p = t.limit_ ∧ t.next_ < t.limit_ := by
  unfold allocate at h
  split at h
  · exact absurd h (by simp)
  · rename_i s1 hstep
    split at h
    · simp at h
    · rename_i hfit
      simp only [Option.some.injEq, Prod.mk.injEq, Except.ok.injEq] at h
      obtain ⟨hp, ht⟩ := h
      rw [← ht]
      refine ⟨hp.symm, ?_⟩
      have hlt : s1.next_ < wsub s1.limit_ size := Nat.lt_of_not_ge hfit
      simp only
      split <;> exact hlt

/-! ## The claims -/

/-- C1, pointer-order invariant, does not hold on the code. From `init`, the mutator builds a
rooted tree `a -> b, c` and calls `allocate(16)`, which collects (copying `a` and `c`) and
returns normally with `from_space_ <= scan_ <= next_ <= limit_`: the pointers are
`(4160, 4160, 4200, 4208)`. The read barrier on field 0 of the root object then copies `b`
(16 bytes) into the 8 free bytes: `chase` never compares `next_` with `limit_`, and the call
returns with `next_ = 4216 > limit_ = 4208`. Without any store by the mutator, `init`
followed by `allocate(2 ^ 63)` returns normally with `limit_ = 2 ^ 63 + 4160`, above
`from_space_ + REGION_SIZE = 4160`. -/
theorem read_barrier_pushes_next_past_limit :
    (tree_alloc 16).map pointers = some (4160, 4160, 4200, 4208) ∧
      tree_alloc_read.map pointers = some (4160, 4160, 4216, 4208) ∧
      (alloc_ok rt64 8 fresh (2 ^ 63)).map (fun r => pointers r.2)
        = some (4096, 4096, 4096, 2 ^ 63 + 4160) := by
  decide

/-- C2, collection round trip, does not hold on the code. One rooted object with fields
`[7, a]`, `a` being the object itself: before `collect` the root holds 4136, whose header is
32 and whose fields are `[7, 4136]`. After `collect` and the read barrier on both fields the
root holds 4184 with header 32 and fields `[4160, 4184]`: `chase` copied the object twice
(`current_allocated_objects_cnt_` is 2), and field 0 of the copy the root holds is the
address of the other copy instead of 7. -/
theorem self_reference_copied_twice :
    self_rooted.map (root_view rt64 · 512) = some (4136, 32, 7, 4136) ∧
      self_collected_read.map (fun s => (root_view rt64 s 512, s.current_allocated_objects_cnt_))
        = some ((4184, 32, 4160, 4184), 2) := by
  decide

/-- C3, roots after `collect`, does not hold on the code. Two rooted objects that each
point to themselves, 40 bytes together in a region of 64: `collect` copies each twice, the
last copy lands at 4160, the base of to-space, and the second root is left holding that
address, which `points_to` places in to-space. -/
theorem collect_leaves_root_in_to_space :
    (two_selves_rooted.bind (collect rt64 8)).map
        (fun s => (s.roots_, s.from_space_, s.to_space_, s.mem 512, s.mem 520,
          points_to rt64 (s.mem 520) s.to_space_))
      = some ([512, 520], 4096, 4160, 4120, 4160, true) := by
  decide

/-- C4, read-barrier postcondition, does not hold on the code. In `pair_collected` the root
holds 4120 and its field 0 holds 4096, an object of from-space with two fields (one read
is counted so far). The read barrier on field 0 of 4096 forwards
the self-pointing object `b`, which `chase` copies twice, the second time at 4160, the base
of to-space; the field is left holding 4160, which `points_to` places in to-space. The
reads counter goes from 1 to 2. -/
theorem read_barrier_leaves_to_space_pointer :
    pair_collected.map (fun s => (s.from_space_, s.to_space_, s.mem 512,
        s.mem (field_addr rt64 (s.mem 512) 0), s.reads_cnt_))
      = some (4096, 4160, 4120, 4096, 1) ∧
    pair_read.map (fun s => (s.mem (field_addr rt64 4096 0),
        points_to rt64 (s.mem (field_addr rt64 4096 0)) s.to_space_, s.reads_cnt_))
      = some (4160, true, 2) := by
  decide

/-- C5, idempotence of `forward`, does not hold on the code. In `pair_collected`,
`forward(4184)` returns 4160 (the second copy of the self-pointing object, past the end of
from-space), and `forward(4160)` in the state left returns 4144. -/
theorem forward_not_idempotent :
    pair_collected.bind (fun s => forward_twice rt64 8 s 4184) = some (4160, 4144) := by
  decide

/-- C6, exact fill, does not hold on the code. With `next_ = 4096` and `limit_ = 4104`,
`allocate(8)` fills the gap exactly; the test `next_ >= limit_ - size` holds, so the call
runs `collect` (`total_cycles_cnt_` goes from 0 to 1) and allocates in the other space. -/
theorem exact_fill_collects :
    almost_full.bind (fun s => (allocate rt64 8 s 8).map (fun r =>
        (s.next_, s.limit_, s.total_cycles_cnt_, r.1, r.2.total_cycles_cnt_)))
      = some (4096, 4104, 0, Except.ok 4216, 1) := by
  decide

/-- C7, oversized request, does not hold on the code. On the fresh heap (`limit_ = 4160`,
`REGION_SIZE = 64`), `allocate(2 ^ 63)` returns normally: `limit_ - size` wraps to
`2 ^ 63 + 4160`, above `next_`, so neither test fires, no collection runs and the wrapped
value is returned as the pointer. -/
theorem oversized_allocate_succeeds :
    REGION_SIZE rt64 = 64 ∧
      (allocate rt64 8 fresh (2 ^ 63)).map (fun r => (r.1, r.2.total_cycles_cnt_))
        = some (Except.ok (2 ^ 63 + 4160), 0) := by
  decide

/-- C8, out-of-memory only after a full collection, does not hold on the code. After
`tree_alloc 8` (one cycle so far) the request `allocate(8)` passes the guard on entry
(`next_ < limit_ - 8`), so the call takes the incremental step and not `collect`; the step
copies `b`, after which the guard fails, and the call throws `bad_alloc` with
`total_cycles_cnt_` still 1. A collection does satisfy the request: the same call made
again in the state the throw leaves collects (cycle 2) and returns the pointer 4152. -/
theorem bad_alloc_without_collect :
    (tree_alloc 8).bind (fun s => (allocate rt64 8 s 8).map (fun r =>
        (decide (s.next_ < wsub s.limit_ 8), s.total_cycles_cnt_, r.1, r.2.total_cycles_cnt_)))
      = some (true, 1, Except.error Failure.bad_alloc, 1) ∧
    (tree_alloc 8).bind (fun s => (allocate rt64 8 s 8).bind (fun r =>
        (allocate rt64 8 r.2 8).map (fun r2 => (r2.1, r2.2.total_cycles_cnt_))))
      = some (Except.ok 4152, 2) :=
  ⟨by decide, by decide⟩

/-- What a call of `allocate` that throws `bad_alloc` has done, for every state and size:
the guard `next_ >= limit_ - size` holds in the state left, and either it held on entry,
`collect` ran in the call and `total_cycles_cnt_` went up by one, or it did not hold on
entry, only `incremental_forward` ran and `total_cycles_cnt_` is unchanged. -/
theorem allocate_bad_alloc_after_step (rt : Runtime) (fuel : Nat) (s t : garbage_collector)
    (size : Nat) (h : allocate rt fuel s size = some (Except.error Failure.bad_alloc, t)) :
    t.next_ ≥ wsub t.limit_ size ∧
      ((s.next_ ≥ wsub s.limit_ size ∧ collect rt fuel s = some t ∧
          t.total_cycles_cnt_ = wadd s.total_cycles_cnt_ 1) ∨
        (s.next_ < wsub s.limit_ size ∧ incremental_forward rt fuel s = some t ∧
          t.total_cycles_cnt_ = s.total_cycles_cnt_)) := by
  unfold allocate at h
  split at h
  · exact absurd h (by simp)
  · rename_i s1 hstep
    split at h
    · rename_i hfull
      simp only [Option.some.injEq, Prod.mk.injEq, true_and] at h
      subst h
      refine ⟨hfull, ?_⟩
      by_cases hentry : s.next_ ≥ wsub s.limit_ size
      · rw [if_pos hentry] at hstep
        exact Or.inl ⟨hentry, hstep, collect_total_cycles rt fuel s s1 hstep⟩
      · rw [if_neg hentry] at hstep
        exact Or.inr ⟨Nat.lt_of_not_ge hentry, hstep,
          incremental_forward_total_cycles rt fuel s s1 hstep⟩
    · simp at h

/-- An instance of `allocate_bad_alloc_after_step`: on the fresh heap the guard holds on
entry for `allocate(64)`, the call runs `collect` and throws `bad_alloc` in the state
`fresh_flipped`. -/
theorem allocate_bad_alloc_after_step_witness :
    allocate rt64 8 fresh 64 = some (Except.error Failure.bad_alloc, fresh_flipped) ∧
      fresh_flipped.next_ ≥ wsub fresh_flipped.limit_ 64 ∧
      ((fresh.next_ ≥ wsub fresh.limit_ 64 ∧ collect rt64 8 fresh = some fresh_flipped ∧
          fresh_flipped.total_cycles_cnt_ = wadd fresh.total_cycles_cnt_ 1) ∨
        (fresh.next_ < wsub fresh.limit_ 64 ∧
          incremental_forward rt64 8 fresh = some fresh_flipped ∧
          fresh_flipped.total_cycles_cnt_ = fresh.total_cycles_cnt_)) :=
  ⟨rfl, allocate_bad_alloc_after_step rt64 8 fresh fresh_flipped 64 rfl⟩

/-- C9, allocation result, does not hold on the code. The fresh heap satisfies the
pointer-order invariant (pointers `(4096, 4096, 4096, 4160)`). `allocate(4168)` returns
normally with the pointer `2 ^ 64 - 8`, the wrapped value of `limit_ - size`; the pointer is
the new `limit_` but `points_to` places it outside from-space, and it is above the old
`limit_`, not inside the free region. -/
theorem allocate_wraps_out_of_from_space :
    pointers fresh = (4096, 4096, 4096, 4160) ∧
      (allocate rt64 8 fresh 4168).map (fun r =>
          (r.1, r.2.limit_, points_to rt64 r.2.limit_ r.2.from_space_))
        = some (Except.ok (2 ^ 64 - 8), 2 ^ 64 - 8, false) := by
  decide

/-- C10, root LIFO discipline: on a root stack `rest ++ [top]`, `pop_root(loc)` returns
normally exactly when `loc = top`, and then the stack left is `rest` and nothing else
changes; for any other `loc` it throws `invalid_argument` and leaves the state as it was;
and `push_root(loc)` followed by `pop_root(loc)` returns normally in the state it started
from. -/
theorem pop_root_lifo (s : garbage_collector) (rest : List Nat) (top loc : Nat)
    (h : s.roots_ = rest ++ [top]) :
    ((pop_root s loc).1 = Except.ok () ↔ loc = top) ∧
      (loc = top → pop_root s loc = (Except.ok (), { s with roots_ := rest })) ∧
      (loc ≠ top → pop_root s loc = (Except.error Failure.invalid_argument, s)) ∧
      pop_root (push_root s loc) loc = (Except.ok (), s) := by
  have hpush : pop_root (push_root s loc) loc = (Except.ok (), s) := by
    simp [pop_root, push_root]
  by_cases hl : loc = top
  · subst hl
    have hpop : pop_root s loc = (Except.ok (), { s with roots_ := rest }) := by
      simp [pop_root, h]
    exact ⟨by simp [hpop], fun _ => hpop, fun hne => absurd rfl hne, hpush⟩
  · have hpop : pop_root s loc = (Except.error Failure.invalid_argument, s) := by
      have hne : ¬ top = loc := fun e => hl e.symm
      simp [pop_root, h, hne]
    exact ⟨by simp [hpop, hl], fun e => absurd e hl, fun _ => hpop, hpush⟩

/-- Witness for C10: on the stack `[512, 520]`, popping 520 leaves `[512]`, popping 512 is
refused with the state unchanged, and pushing 528 then popping it restores the state. -/
theorem pop_root_lifo_witness :
    two_roots.roots_ = [512] ++ [520] ∧
      pop_root two_roots 520 = (Except.ok (), { two_roots with roots_ := [512] }) ∧
      pop_root two_roots 512 = (Except.error Failure.invalid_argument, two_roots) ∧
      pop_root (push_root two_roots 528) 528 = (Except.ok (), two_roots) :=
  ⟨rfl, (pop_root_lifo two_roots [512] 520 520 rfl).2.1 rfl,
    (pop_root_lifo two_roots [512] 520 512 rfl).2.2.1 (by decide),
    (pop_root_lifo two_roots [512] 520 528 rfl).2.2.2⟩

/-! ## Byte accounting and residency along a run -/

theorem bytes_accounted_congr (rt : Runtime) {s t : garbage_collector}
    (hc : t.current_allocated_bytes_cnt_ = s.current_allocated_bytes_cnt_)
    (hn : t.next_ = s.next_) (hf : t.from_space_ = s.from_space_) (hl : t.limit_ = s.limit_)
    (h : bytes_accounted rt s) : bytes_accounted rt t := by
  unfold bytes_accounted at *
  rw [hc, hn, hf, hl]
  exact h

theorem accounted_copy (cur n f top lim sz : Nat)
    (h : cur = wadd (wsub n f) (wsub top lim)) :
    wadd cur sz = wadd (wsub (wadd n sz) f) (wsub top lim) := by
  subst h
  unfold wadd wsub WORD
  omega

theorem accounted_bump (cur n f top lim size : Nat)
    (h : cur = wadd (wsub n f) (wsub top lim)) :
    wadd cur size = wadd (wsub n f) (wsub top (wsub lim size)) := by
  subst h
  unfold wadd wsub WORD
  omega

theorem accounted_empty (n top : Nat) : 0 = wadd (wsub n n) (wsub top top) := by
  unfold wadd wsub WORD
  omega

theorem chase_fields_mem_only (rt : Runtime) :
    ∀ (fuel : Nat) (s : garbage_collector) (p q i r : Nat) (t : garbage_collector) (r1 : Nat),
      chase_fields rt fuel s p q i r = some (t, r1) → t = { s with mem := t.mem } := by
  intro fuel
  induction fuel with
  | zero => intro s p q i r t r1 h; simp [chase_fields] at h
  | succ n ih =>
    intro s p q i r t r1 h
    unfold chase_fields at h
    split at h
    · have h1 := ih _ _ _ _ _ _ _ h
      rw [h1]
      rfl
    · simp only [Option.some.injEq, Prod.mk.injEq] at h
      rw [← h.1]

theorem chase_accounted (rt : Runtime) :
    ∀ (fuel : Nat) (s : garbage_collector) (p : Nat) (t : garbage_collector),
      chase rt fuel s p = some t → bytes_accounted rt s → bytes_accounted rt t := by
  intro fuel
  induction fuel with
  | zero => intro s p t h; simp [chase] at h
  | succ n ih =>
    intro s p t h hacc
    unfold chase at h
    simp only at h
    split at h
    · exact absurd h (by simp)
    · rename_i s4 r hcf
      have hm := chase_fields_mem_only rt _ _ _ _ _ _ _ _ hcf
      have h4 : bytes_accounted rt s4 := by
        rw [hm]
        unfold bytes_accounted at *
        exact accounted_copy _ _ _ _ _ _ hacc
      have h5 : bytes_accounted rt (s4.store (field_addr rt p 0) s.next_) :=
        bytes_accounted_congr rt rfl rfl rfl rfl h4
      split at h
      · exact ih _ _ _ h h5
      · simp only [Option.some.injEq] at h
        rw [← h]
        exact h5

theorem forward_accounted (rt : Runtime) (fuel : Nat) (s : garbage_collector) (p : Nat)
    (t : garbage_collector) (v : Nat) (h : forward rt fuel s p = some (t, v))
    (hacc : bytes_accounted rt s) : bytes_accounted rt t := by
  unfold forward at h
  split at h
  · split at h
    · simp only [Option.some.injEq, Prod.mk.injEq] at h
      rw [← h.1]
      exact hacc
    · split at h
      · exact absurd h (by simp)
      · rename_i s1 hc
        simp only [Option.some.injEq, Prod.mk.injEq] at h
        rw [← h.1]
        exact chase_accounted rt _ _ _ _ hc hacc
  · simp only [Option.some.injEq, Prod.mk.injEq] at h
    rw [← h.1]
    exact hacc

theorem forward_roots_accounted (rt : Runtime) (fuel : Nat) :
    ∀ (roots : List Nat) (s t : garbage_collector),
      forward_roots rt fuel roots s = some t → bytes_accounted rt s → bytes_accounted rt t := by
  intro roots
  induction roots with
  | nil =>
    intro s t h hacc
    simp only [forward_roots, Option.some.injEq] at h
    rw [← h]
    exact hacc
  | cons root rest ih =>
    intro s t h hacc
    unfold forward_roots at h
    split at h
    · exact absurd h (by simp)
    · rename_i s1 v hf
      have h1 : bytes_accounted rt s1 := forward_accounted rt _ _ _ _ _ hf hacc
      exact ih _ _ h (bytes_accounted_congr rt rfl rfl rfl rfl h1)

theorem forward_fields_accounted (rt : Runtime) :
    ∀ (fuel : Nat) (s : garbage_collector) (object i : Nat) (t : garbage_collector),
      forward_fields rt fuel s object i = some t → bytes_accounted rt s →
        bytes_accounted rt t := by
  intro fuel
  induction fuel with
  | zero => intro s object i t h; simp [forward_fields] at h
  | succ n ih =>
    intro s object i t h hacc
    unfold forward_fields at h
    split at h
    · split at h
      · exact absurd h (by simp)
      · rename_i s1 v hf
        have h1 : bytes_accounted rt s1 := forward_accounted rt _ _ _ _ _ hf hacc
        exact ih _ _ _ _ h (bytes_accounted_congr rt rfl rfl rfl rfl h1)
    · simp only [Option.some.injEq] at h
      rw [← h]
      exact hacc

theorem incremental_forward_loop_accounted (rt : Runtime) (fuel : Nat) :
    ∀ (budget : Nat) (s t : garbage_collector),
      incremental_forward_loop rt fuel budget s = some t → bytes_accounted rt s →
        bytes_accounted rt t := by
  intro budget
  induction budget with
  | zero =>
    intro s t h hacc
    simp only [incremental_forward_loop, Option.some.injEq] at h
    rw [← h]
    exact hacc
  | succ n ih =>
    intro s t h hacc
    unfold incremental_forward_loop at h
    split at h
    · simp only at h
      split at h
      · exact absurd h (by simp)
      · rename_i s1 hf
        have h1 : bytes_accounted rt s1 := forward_fields_accounted rt _ _ _ _ _ hf hacc
        exact ih _ _ h (bytes_accounted_congr rt rfl rfl rfl rfl h1)
    · simp only [Option.some.injEq] at h
      rw [← h]
      exact hacc

theorem collect_eq (rt : Runtime) (fuel : Nat) (s : garbage_collector) :
    collect rt fuel s = forward_roots rt fuel (collect_flip rt s).roots_ (collect_flip rt s) :=
  rfl

/-- The method `collect` establishes the byte accounting: both sides are zero after the swap,
and every copy adds its size to both. -/
theorem collect_accounted (rt : Runtime) (fuel : Nat) (s t : garbage_collector)
    (h : collect rt fuel s = some t) : bytes_accounted rt t := by
  rw [collect_eq] at h
  refine forward_roots_accounted rt fuel _ _ _ h ?_
  unfold bytes_accounted collect_flip
  exact accounted_empty _ _

/-- What a call of `allocate` that returns normally does to the state `s1` left by its
collection or incremental step. -/
theorem allocate_ok_effect (rt : Runtime) (fuel : Nat) (s t : garbage_collector)
    (size p : Nat) (h : allocate rt fuel s size = some (Except.ok p, t)) :
    ∃ s1, (if s.next_ ≥ wsub s.limit_ size then collect rt fuel s
            else incremental_forward rt fuel s) = some s1 ∧
      t.next_ = s1.next_ ∧ t.from_space_ = s1.from_space_ ∧
      t.limit_ = wsub s1.limit_ size ∧
      t.current_allocated_bytes_cnt_ = wadd s1.current_allocated_bytes_cnt_ size ∧
      t.current_allocated_objects_cnt_ = wadd s1.current_allocated_objects_cnt_ 1 ∧
      (t.maximum_resident_bytes_cnt_, t.maximum_resident_objects_cnt_)
        = (if t.current_allocated_bytes_cnt_ > s1.maximum_resident_bytes_cnt_ then
            (t.current_allocated_bytes_cnt_, t.current_allocated_objects_cnt_)
          else (s1.maximum_resident_bytes_cnt_, s1.maximum_resident_objects_cnt_)) := by
  unfold allocate at h
  split at h
  · exact absurd h (by simp)
  · rename_i s1 hstep
    refine ⟨s1, hstep, ?_⟩
    split at h
    · simp at h
    · simp only [Option.some.injEq, Prod.mk.injEq, Except.ok.injEq] at h
      rw [← h.2]
      simp only
      split <;> simp_all

/-- The state a call of `allocate` that throws leaves is the state left by its collection
or incremental step. -/
theorem allocate_throws_effect (rt : Runtime) (fuel : Nat) (s t : garbage_collector)
    (size : Nat) (e : Failure) (h : allocate rt fuel s size = some (Except.error e, t)) :
    (if s.next_ ≥ wsub s.limit_ size then collect rt fuel s
      else incremental_forward rt fuel s) = some t := by
  unfold allocate at h
  split at h
  · exact absurd h (by simp)
  · rename_i s1 hstep
    split at h
    · simp only [Option.some.injEq, Prod.mk.injEq] at h
      rw [← h.2]
      exact hstep
    · simp at h

theorem allocate_step_accounted (rt : Runtime) (fuel : Nat) (s s1 : garbage_collector)
    (size : Nat)
    (hstep : (if s.next_ ≥ wsub s.limit_ size then collect rt fuel s
      else incremental_forward rt fuel s) = some s1)
    (hacc : bytes_accounted rt s) : bytes_accounted rt s1 := by
  split at hstep
  · exact collect_accounted rt fuel s s1 hstep
  · exact incremental_forward_loop_accounted rt fuel _ _ _ hstep hacc

theorem allocate_step_maxima (rt : Runtime) (fuel : Nat) (s s1 : garbage_collector)
    (size : Nat)
    (hstep : (if s.next_ ≥ wsub s.limit_ size then collect rt fuel s
      else incremental_forward rt fuel s) = some s1) :
    s1.maximum_resident_bytes_cnt_ = s.maximum_resident_bytes_cnt_ ∧
      s1.maximum_resident_objects_cnt_ = s.maximum_resident_objects_cnt_ := by
  split at hstep
  · rw [collect_eq] at hstep
    have hf := forward_roots_frame rt fuel _ _ _ hstep
    exact ⟨hf.maximum_resident_bytes_cnt_, hf.maximum_resident_objects_cnt_⟩
  · have hf := incremental_forward_loop_frame rt fuel _ _ _ hstep
    exact ⟨hf.maximum_resident_bytes_cnt_, hf.maximum_resident_objects_cnt_⟩

theorem read_barrier_accounted (rt : Runtime) (fuel : Nat) (s t : garbage_collector)
    (object field_index : Nat) (h : read_barrier rt fuel s object field_index = some t)
    (hacc : bytes_accounted rt s) : bytes_accounted rt t := by
  unfold read_barrier at h
  simp only at h
  split at h
  · exact absurd h (by simp)
  · rename_i s2 v hf
    simp only [Option.some.injEq] at h
    rw [← h]
    have h1 : bytes_accounted rt { s with reads_cnt_ := wadd s.reads_cnt_ 1 } :=
      bytes_accounted_congr rt rfl rfl rfl rfl hacc
    have h2 : bytes_accounted rt s2 := forward_accounted rt _ _ _ _ _ hf h1
    exact bytes_accounted_congr rt rfl rfl rfl rfl h2

theorem read_barrier_maxima (rt : Runtime) (fuel : Nat) (s t : garbage_collector)
    (object field_index : Nat) (h : read_barrier rt fuel s object field_index = some t) :
    t.maximum_resident_bytes_cnt_ = s.maximum_resident_bytes_cnt_ ∧
      t.maximum_resident_objects_cnt_ = s.maximum_resident_objects_cnt_ := by
  unfold read_barrier at h
  simp only at h
  split at h
  · exact absurd h (by simp)
  · rename_i s2 v hf
    simp only [Option.some.injEq] at h
    rw [← h]
    have hfr := forward_frame rt _ _ _ _ _ hf
    exact ⟨hfr.maximum_resident_bytes_cnt_, hfr.maximum_resident_objects_cnt_⟩

theorem pop_root_fields (s : garbage_collector) (object : Nat) :
    (pop_root s object).2 = { s with roots_ := (pop_root s object).2.roots_ } := by
  unfold pop_root
  split
  · rfl
  · split <;> rfl

theorem largest_eq_peak (h : List (Nat × Nat)) :
    (residency_peak h).1 = largest (h.map Prod.fst) := by
  induction h with
  | nil => rfl
  | cons x older ih =>
    simp only [residency_peak, List.map_cons, largest]
    split
    · rename_i hgt
      rw [← ih]
      omega
    · rename_i hle
      rw [← ih]
      omega

theorem pop_root_accounted (rt : Runtime) (s : garbage_collector) (object : Nat)
    (hacc : bytes_accounted rt s) : bytes_accounted rt (pop_root s object).2 := by
  unfold pop_root
  split
  · exact hacc
  · split
    · exact hacc
    · exact bytes_accounted_congr rt rfl rfl rfl rfl hacc

theorem pop_root_residency (s : garbage_collector) (object : Nat) :
    residency (pop_root s object).2 = residency s := by
  unfold pop_root
  split
  · rfl
  · split <;> rfl

theorem run_fresh_56 : Run rt64 fresh_56 [(56, 1)] :=
  Run.allocate_ok 8 56 4104 (Run.init (fun _ => 0) 4096) rfl

/-! ## The claims, continued -/

/-- C11, `pop_root` on an empty root stack, does not hold on the code. The method starts
with `roots_.back()`, which is undefined on an empty deque, and has no test for emptiness;
on the fresh collector `pop_root(512)` is that undefined call, not the misuse error. -/
theorem pop_root_empty_undefined :
    fresh.roots_ = [] ∧
      pop_root fresh 512 = (Except.error Failure.undefined_behaviour, fresh) :=
  ⟨rfl, rfl⟩

/-- C12, bounds on `current_allocated_bytes` after `allocate`, does not hold on the code.
With `REGION_SIZE = 64`, `allocate(4168)` on the fresh heap returns normally (the guard
wraps) and leaves the counter at 4168, above `REGION_SIZE`; and after `allocate(2 ^ 63)`
has returned normally, a second `allocate(2 ^ 63)` returns normally and leaves the counter
at 0, below the size asked for. -/
theorem current_bytes_out_of_bounds :
    REGION_SIZE rt64 = 64 ∧
      (alloc_ok rt64 8 fresh 4168).map (fun r => r.2.current_allocated_bytes_cnt_)
        = some 4168 ∧
      (alloc_times rt64 8 (2 ^ 63) 2 fresh).map (fun s => s.current_allocated_bytes_cnt_)
        = some 0 := by
  decide

/-- C13, scenario "cycle triggers collection", does not hold on the code. With
`REGION_SIZE = 256` and no roots, seven calls `allocate(32)` leave 32 free bytes and no
cycle; the eighth fills the gap exactly and therefore collects (counters: 1 cycle, 32
bytes, 1 object); after the ninth the counters are 1 cycle, 64 bytes, 2 objects, so
`current_allocated_bytes` is 64, not 32. -/
theorem nine_allocations_leave_64_bytes :
    REGION_SIZE rt256 = 256 ∧
      (alloc_times rt256 8 32 7 fresh256).map cycle_counters = some (0, 224, 7) ∧
      (alloc_times rt256 8 32 8 fresh256).map cycle_counters = some (1, 32, 1) ∧
      (alloc_times rt256 8 32 9 fresh256).map cycle_counters = some (1, 64, 2) := by
  decide

/-- C14, copy fidelity, does not hold on the code. In `self_unrooted` the object `p = 4136`
lies in to-space, is not copied (its field 0 is 7), has header 32 and fields `[7, 4136]`,
and 56 bytes are free. `forward(p)` returns `q = 4184`, whose header is 32 and whose fields
are `[4160, 4136]`: field 0 of `q` is the address of a first copy of `p`, not the 7 that
`p.fields[0]` held. Afterwards `p.fields[0] = q`. -/
theorem forward_self_reference_loses_field :
    self_unrooted.map (fun s => (pointers s, points_to rt64 4136 s.to_space_,
        object_view rt64 s 4136))
      = some ((4160, 4160, 4160, 4216), true, (32, 7, 4136)) ∧
    (self_unrooted.bind (fun s => forward rt64 8 s 4136)).map
        (fun r => (r.2, object_view rt64 r.1 r.2, r.1.mem (field_addr rt64 4136 0)))
      = some (4184, (32, 4160, 4136), 4184) := by
  decide

/-- C16 as stated does not hold on the code. `allocate(56)` ends with 56 bytes in 1 object
(residency pair `(56, 1)`); the next three calls `allocate(8)` end with 1, 2 and 3 current
objects (the first of them collects), and the residency pair stays `(56, 1)`: the largest
object count seen at the end of an `allocate` is 3, `maximum_resident_objects_cnt_` is 1. -/
theorem residency_objects_not_largest :
    (big_then_small 0).map (fun s => (cycle_counters s, residency s))
      = some ((0, 56, 1), (56, 1)) ∧
    (big_then_small 1).map (fun s => (cycle_counters s, residency s))
      = some ((1, 8, 1), (56, 1)) ∧
    (big_then_small 2).map (fun s => (cycle_counters s, residency s))
      = some ((1, 16, 2), (56, 1)) ∧
    (big_then_small 3).map (fun s => (cycle_counters s, residency s))
      = some ((1, 24, 3), (56, 1)) := by
  decide

/-- C16, amended: along every run, `maximum_resident_bytes_cnt_` is the largest value
`current_allocated_bytes_cnt_` has had at the end of a call of `allocate` that returned
normally (0 before the first), and `maximum_resident_objects_cnt_` is the value
`current_allocated_objects_cnt_` had at the end of the call that last raised
`maximum_resident_bytes_cnt_`. -/
theorem run_residency (rt : Runtime) (s : garbage_collector) (h : List (Nat × Nat))
    (hrun : Run rt s h) :
    residency s = residency_peak h ∧
      s.maximum_resident_bytes_cnt_ = largest (h.map Prod.fst) := by
  have key : residency s = residency_peak h := by
    induction hrun with
    | init mem heap => rfl
    | allocate_ok fuel size p _ hal ih =>
      obtain ⟨s1, hstep, _, _, _, _, _, hmax⟩ := allocate_ok_effect rt fuel _ _ size p hal
      have hm := allocate_step_maxima rt fuel _ _ size hstep
      have ih1 := congrArg Prod.fst ih
      have ih2 := congrArg Prod.snd ih
      simp only [residency] at ih ih1 ih2
      simp only [residency, residency_peak]
      rw [hmax, hm.1, hm.2, ih1, ih2]
    | allocate_throws fuel size e _ hal ih =>
      have hm := allocate_step_maxima rt fuel _ _ size
        (allocate_throws_effect rt fuel _ _ size e hal)
      simp only [residency] at ih ⊢
      rw [hm.1, hm.2]
      exact ih
    | read_barrier fuel object field_index _ hrb ih =>
      have hm := read_barrier_maxima rt fuel _ _ object field_index hrb
      simp only [residency] at ih ⊢
      rw [hm.1, hm.2]
      exact ih
    | write_barrier _ ih => exact ih
    | push_root object _ ih => exact ih
    | pop_root object _ ih => rw [pop_root_residency]; exact ih
    | store a v _ ih => exact ih
  refine ⟨key, ?_⟩
  rw [← largest_eq_peak, ← key]
  rfl

/-- Witness for C16 amended: the run `init; allocate(56)` on the heap at 4096. -/
theorem run_residency_witness :
    Run rt64 fresh_56 [(56, 1)] ∧ residency fresh_56 = residency_peak [(56, 1)] ∧
      fresh_56.maximum_resident_bytes_cnt_ = largest [56] :=
  ⟨run_fresh_56, run_residency rt64 fresh_56 [(56, 1)] run_fresh_56⟩

/-- C18, termination of `chase` with one fresh object per round, does not hold on the code.
In `self_alone` the only object of to-space is `p = 4136` (24 bytes, fields `[7, p]`), it is
not copied and 24 bytes are free. `chase(p)` runs two rounds, both on `p`: the object count
goes from 1 to 3, `next_` advances by 48 from 4160 to 4208 (past `limit_ = 4184`), and
from-space holds two copies of `p`, at 4160 and at 4184. The same happens in
`self_unrooted`, where 56 bytes are free. -/
theorem chase_copies_self_reference_twice :
    self_alone.map (fun s => (pointers s, s.current_allocated_objects_cnt_,
        object_view rt64 s 4136))
      = some ((4160, 4160, 4160, 4184), 1, (32, 7, 4136)) ∧
    (self_alone.bind (fun s => chase rt64 8 s 4136)).map
        (fun s => (pointers s, s.current_allocated_objects_cnt_,
          object_view rt64 s 4160, object_view rt64 s 4184))
      = some ((4160, 4160, 4208, 4184), 3, (32, 7, 4136), (32, 4160, 4136)) ∧
    (self_unrooted.bind (fun s => chase rt64 8 s 4136)).map
        (fun s => (pointers s, s.current_allocated_objects_cnt_,
          object_view rt64 s 4160, object_view rt64 s 4184))
      = some ((4160, 4160, 4208, 4216), 3, (32, 7, 4136), (32, 4160, 4136)) :=
  ⟨by decide, by decide, by decide⟩

/-- C19, sentinel soundness at the flip, does not hold on the code. After `tree_alloc 8`
the scan of the cycle is not finished (`scan_ = 4160 < next_ = 4200`): the root object 4160
is a copy whose field 0 still holds 4120, the address of `b` in the old space. The next
`allocate(16)` does not fit and collects at once. Right after the swap (`tree_flipped`)
from-space is `[4096, 4160)` and to-space `[4160, 4224)`: the live root object lies in
to-space and its field 0, 4120, points into from-space although nothing was copied in this
cycle. `forward` takes it for a forwarding pointer: the call returns normally with the root
holding 4120, one current object (the new one) and `next_` still at the base. -/
theorem stale_pointer_taken_for_forwarding :
    (tree_alloc 8).map (fun s => (pointers s, decide (s.next_ ≥ wsub s.limit_ 16)))
      = some ((4160, 4160, 4200, 4216), true) ∧
    tree_flipped.map (fun s => (pointers s, root_view rt64 s 512))
      = some ((4096, 4096, 4096, 4160), (4160, 32, 4120, 4104)) ∧
    tree_flipped.map (fun s => (s.to_space_, points_to rt64 4160 s.to_space_,
        points_to rt64 4120 s.from_space_, s.current_allocated_objects_cnt_))
      = some (4160, true, true, 0) ∧
    ((tree_alloc 8).bind (fun s => alloc_ok rt64 8 s 16)).map
        (fun r => (r.2.mem 512, cycle_counters r.2, pointers r.2))
      = some (4120, (2, 16, 1), (4096, 4096, 4096, 4144)) :=
  ⟨by decide, by decide, by decide, by decide⟩

theorem wadd_wadd (a b c : Nat) : wadd (wadd a b) c = wadd a (b + c) := by
  unfold wadd WORD
  omega

/-- Every round of `chase` copies one object and adds its size to
`current_allocated_bytes_cnt_` and to `next_`; the first object is `p`. -/
theorem chase_grows (rt : Runtime) :
    ∀ (fuel : Nat) (s : garbage_collector) (p : Nat) (t : garbage_collector),
      chase rt fuel s p = some t →
      ∃ sizes : List Nat, sizes.head? = some (object_size rt (s.mem p)) ∧
        t.current_allocated_bytes_cnt_ = wadd s.current_allocated_bytes_cnt_ sizes.sum ∧
        t.current_allocated_objects_cnt_
          = wadd s.current_allocated_objects_cnt_ sizes.length ∧
        t.next_ = wadd s.next_ sizes.sum := by
  intro fuel
  induction fuel with
  | zero => intro s p t h; simp [chase] at h
  | succ n ih =>
    intro s p t h
    unfold chase at h
    simp only at h
    split at h
    · exact absurd h (by simp)
    · rename_i s4 r hcf
      have hm := chase_fields_mem_only rt _ _ _ _ _ _ _ _ hcf
      have hc4 : s4.current_allocated_bytes_cnt_
          = wadd s.current_allocated_bytes_cnt_ (object_size rt (s.mem p)) := by
        rw [hm]; rfl
      have ho4 : s4.current_allocated_objects_cnt_
          = wadd s.current_allocated_objects_cnt_ 1 := by
        rw [hm]; rfl
      have hn4 : s4.next_ = wadd s.next_ (object_size rt (s.mem p)) := by
        rw [hm]; rfl
      split at h
      · obtain ⟨sizes, _, hc, ho, hn⟩ := ih _ _ _ h
        refine ⟨object_size rt (s.mem p) :: sizes, rfl, ?_, ?_, ?_⟩
        · rw [hc, List.sum_cons, ← wadd_wadd]
          exact congrArg (fun x => wadd x sizes.sum) hc4
        · rw [ho, List.length_cons, Nat.add_comm sizes.length 1, ← wadd_wadd]
          exact congrArg (fun x => wadd x sizes.length) ho4
        · rw [hn, List.sum_cons, ← wadd_wadd]
          exact congrArg (fun x => wadd x sizes.sum) hn4
      · simp only [Option.some.injEq] at h
        rw [← h]
        refine ⟨[object_size rt (s.mem p)], rfl, ?_, ?_, ?_⟩
        · simpa using hc4
        · simpa using ho4
        · simpa using hn4

theorem copied_bytes_grow (n f k : Nat) : wsub (wadd n k) f = wadd (wsub n f) k := by
  unfold wadd wsub WORD
  omega

theorem allocated_bytes_grow (top lim size : Nat) :
    wsub top (wsub lim size) = wadd (wsub top lim) size := by
  unfold wadd wsub WORD
  omega

theorem allocated_bytes_flip (rt : Runtime) (s : garbage_collector) :
    allocated_bytes rt (collect_flip rt s) = 0 := by
  unfold allocated_bytes collect_flip wadd wsub WORD
  simp only
  omega

theorem copied_bytes_flip (rt : Runtime) (s : garbage_collector) :
    copied_bytes (collect_flip rt s) = 0 := by
  unfold copied_bytes collect_flip wsub WORD
  simp only
  omega

theorem wadd_zero_of_lt (a : Nat) (h : a < WORD) : wadd a 0 = a := by
  unfold wadd
  simpa using Nat.mod_eq_of_lt h

theorem copied_bytes_lt (s : garbage_collector) : copied_bytes s < WORD := by
  unfold copied_bytes wsub
  exact Nat.mod_lt _ (by unfold WORD; decide)

/-- C20, byte accounting. In every state of every run,
`current_allocated_bytes == (next - from_space) + (from_space + REGION_SIZE - limit)` in
`size_t` arithmetic, and when the pointers are ordered
(`from_space <= next <= limit <= from_space + REGION_SIZE`, the sum being a pointer value)
the equation holds between the numbers themselves. The three steps that re-establish it:
the assignments at the start of `collect` leave the counter and both summands zero, which
is the state `collect` returns when there is no root, and in every state `collect` returns
the spaces are swapped, nothing is allocated and the counter is the bytes copied; `chase`
adds to the counter and to the bytes copied the sizes of the objects it copies, one per
round and counted in `current_allocated_objects_cnt_`, the first being `p`, and leaves the
bytes allocated alone; `allocate`, when it returns normally, adds `size` to the counter and
to the bytes allocated after its collection or incremental step and leaves the bytes
copied alone. -/
theorem run_bytes_accounted (rt : Runtime) :
    (∀ (s : garbage_collector) (h : List (Nat × Nat)), Run rt s h →
      bytes_accounted rt s ∧
        (s.from_space_ ≤ s.next_ → s.next_ ≤ s.limit_ →
          s.limit_ ≤ s.from_space_ + REGION_SIZE rt → s.from_space_ + REGION_SIZE rt < WORD →
          s.current_allocated_bytes_cnt_
            = (s.next_ - s.from_space_) + (s.from_space_ + REGION_SIZE rt - s.limit_))) ∧
    (∀ (fuel : Nat) (s : garbage_collector),
      (collect_flip rt s).current_allocated_bytes_cnt_ = 0 ∧
        copied_bytes (collect_flip rt s) = 0 ∧ allocated_bytes rt (collect_flip rt s) = 0 ∧
        (s.roots_ = [] → collect rt fuel s = some (collect_flip rt s))) ∧
    (∀ (fuel : Nat) (s t : garbage_collector), collect rt fuel s = some t →
      forward_roots rt fuel s.roots_ (collect_flip rt s) = some t ∧
        t.from_space_ = s.to_space_ ∧ t.to_space_ = s.from_space_ ∧
        allocated_bytes rt t = 0 ∧ t.current_allocated_bytes_cnt_ = copied_bytes t) ∧
    (∀ (fuel : Nat) (s : garbage_collector) (p : Nat) (t : garbage_collector),
      chase rt fuel s p = some t →
      ∃ sizes : List Nat, sizes.head? = some (object_size rt (s.mem p)) ∧
        t.current_allocated_bytes_cnt_ = wadd s.current_allocated_bytes_cnt_ sizes.sum ∧
        t.current_allocated_objects_cnt_
          = wadd s.current_allocated_objects_cnt_ sizes.length ∧
        copied_bytes t = wadd (copied_bytes s) sizes.sum ∧
        allocated_bytes rt t = allocated_bytes rt s) ∧
    (∀ (fuel : Nat) (s : garbage_collector) (size q : Nat) (t : garbage_collector),
      allocate rt fuel s size = some (Except.ok q, t) →
      ∃ s1, (if s.next_ ≥ wsub s.limit_ size then collect rt fuel s
              else incremental_forward rt fuel s) = some s1 ∧
        t.current_allocated_bytes_cnt_ = wadd s1.current_allocated_bytes_cnt_ size ∧
        allocated_bytes rt t = wadd (allocated_bytes rt s1) size ∧
        copied_bytes t = copied_bytes s1) := by
  refine ⟨?_, ?_, ?_, ?_, ?_⟩
  · intro s h hrun
    have key : bytes_accounted rt s := by
      induction hrun with
      | init mem heap =>
        unfold bytes_accounted init
        exact accounted_empty _ _
      | allocate_ok fuel size p _ hal ih =>
        obtain ⟨s1, hstep, hn, hf, hl, hc, _, _⟩ := allocate_ok_effect rt fuel _ _ size p hal
        have h1 := allocate_step_accounted rt fuel _ _ size hstep ih
        unfold bytes_accounted at h1 ⊢
        rw [hn, hf, hl, hc]
        exact accounted_bump _ _ _ _ _ _ h1
      | allocate_throws fuel size e _ hal ih =>
        exact allocate_step_accounted rt fuel _ _ size
          (allocate_throws_effect rt fuel _ _ size e hal) ih
      | read_barrier fuel object field_index _ hrb ih =>
        exact read_barrier_accounted rt fuel _ _ object field_index hrb ih
      | write_barrier _ ih => exact bytes_accounted_congr rt rfl rfl rfl rfl ih
      | push_root object _ ih => exact bytes_accounted_congr rt rfl rfl rfl rfl ih
      | pop_root object _ ih => exact pop_root_accounted rt _ object ih
      | store a v _ ih => exact bytes_accounted_congr rt rfl rfl rfl rfl ih
    refine ⟨key, ?_⟩
    intro h1 h2 h3 h4
    unfold bytes_accounted at key
    rw [key]
    unfold wadd wsub
    generalize REGION_SIZE rt = R at *
    unfold WORD at *
    omega
  · intro fuel s
    refine ⟨rfl, copied_bytes_flip rt s, allocated_bytes_flip rt s, ?_⟩
    intro hr
    rw [collect_eq]
    have hr1 : (collect_flip rt s).roots_ = [] := hr
    rw [hr1]
    rfl
  · intro fuel s t h
    have hacc := collect_accounted rt fuel s t h
    rw [collect_eq] at h
    have hf := forward_roots_frame rt fuel _ _ _ h
    have hfrom : t.from_space_ = s.to_space_ := hf.from_space_
    have hto : t.to_space_ = s.from_space_ := hf.to_space_
    have hal : allocated_bytes rt t = 0 := by
      have h0 := allocated_bytes_flip rt s
      unfold allocated_bytes at h0 ⊢
      rw [hf.from_space_, hf.limit_]
      exact h0
    refine ⟨h, hfrom, hto, hal, ?_⟩
    unfold bytes_accounted at hacc
    rw [hacc]
    unfold allocated_bytes at hal
    rw [hal]
    exact wadd_zero_of_lt _ (copied_bytes_lt t)
  · intro fuel s p t h
    obtain ⟨sizes, hh, hc, ho, hn⟩ := chase_grows rt fuel s p t h
    have hf := chase_frame rt fuel s p t h
    refine ⟨sizes, hh, hc, ho, ?_, ?_⟩
    · unfold copied_bytes
      rw [hn, hf.from_space_]
      exact copied_bytes_grow _ _ _
    · unfold allocated_bytes
      rw [hf.from_space_, hf.limit_]
  · intro fuel s size q t h
    obtain ⟨s1, hstep, hn, hf, hl, hc, _, _⟩ := allocate_ok_effect rt fuel s t size q h
    refine ⟨s1, hstep, hc, ?_, ?_⟩
    · unfold allocated_bytes
      rw [hf, hl]
      exact allocated_bytes_grow _ _ _
    · unfold copied_bytes
      rw [hn, hf]

/-- Witness for C20: the run `init; allocate(56)` on the heap at 4096, where
`56 = (4096 - 4096) + (4096 + 64 - 4104)`; `collect` on the fresh collector, which has no
root; `collect` on `chain3`, which copies the rooted chain; `chase` of the one-field object
of `leaf_in_to_space`; and `allocate(56)` on the fresh collector. -/
theorem run_bytes_accounted_witness :
    (Run rt64 fresh_56 [(56, 1)] ∧ bytes_accounted rt64 fresh_56 ∧
      fresh_56.current_allocated_bytes_cnt_
        = (fresh_56.next_ - fresh_56.from_space_)
          + (fresh_56.from_space_ + REGION_SIZE rt64 - fresh_56.limit_)) ∧
    (fresh.roots_ = [] ∧ collect rt64 8 fresh = some (collect_flip rt64 fresh)) ∧
    (∃ t, collect rt64 4 chain3 = some t ∧ t.from_space_ = chain3.to_space_ ∧
      allocated_bytes rt64 t = 0 ∧ t.current_allocated_bytes_cnt_ = copied_bytes t) ∧
    (∃ (t : garbage_collector) (sizes : List Nat),
      chase rt64 2 leaf_in_to_space 4160 = some t ∧
      sizes.head? = some (object_size rt64 (leaf_in_to_space.mem 4160)) ∧
      t.current_allocated_bytes_cnt_
        = wadd leaf_in_to_space.current_allocated_bytes_cnt_ sizes.sum ∧
      copied_bytes t = wadd (copied_bytes leaf_in_to_space) sizes.sum) ∧
    (allocate rt64 8 fresh 56 = some (Except.ok 4104, fresh_56) ∧
      fresh_56.current_allocated_bytes_cnt_ = wadd fresh.current_allocated_bytes_cnt_ 56 ∧
      allocated_bytes rt64 fresh_56 = wadd (allocated_bytes rt64 fresh) 56) := by
  refine ⟨⟨run_fresh_56, ((run_bytes_accounted rt64).1 fresh_56 [(56, 1)] run_fresh_56).1,
    ((run_bytes_accounted rt64).1 fresh_56 [(56, 1)] run_fresh_56).2
      (by decide) (by decide) (by decide) (by decide)⟩,
    ⟨rfl, ((run_bytes_accounted rt64).2.1 8 fresh).2.2.2 rfl⟩, ?_, ?_, ?_⟩
  · obtain ⟨t, ht⟩ := Option.isSome_iff_exists.mp
      (by decide : (collect rt64 4 chain3).isSome = true)
    have h := (run_bytes_accounted rt64).2.2.1 4 chain3 t ht
    exact ⟨t, ht, h.2.1, h.2.2.2.1, h.2.2.2.2⟩
  · obtain ⟨t, ht⟩ := Option.isSome_iff_exists.mp
      (by decide : (chase rt64 2 leaf_in_to_space 4160).isSome = true)
    obtain ⟨sizes, h1, h2, _, h4, _⟩ :=
      (run_bytes_accounted rt64).2.2.2.1 2 leaf_in_to_space 4160 t ht
    exact ⟨t, sizes, ht, h1, h2, h4⟩
  · obtain ⟨s1, hstep, h2, h3, _⟩ :=
      (run_bytes_accounted rt64).2.2.2.2 8 fresh 56 4104 fresh_56 rfl
    have hs1 : some fresh = some s1 := hstep
    rw [← Option.some.inj hs1] at h2 h3
    exact ⟨rfl, h2, h3⟩

/-! ## Reading memory after a store, and addresses without wrap-around -/

theorem store_mem_same (s : garbage_collector) (a v : Nat) : (s.store a v).mem a = v := by
  simp [garbage_collector.store]

theorem store_mem_other (s : garbage_collector) (a v x : Nat) (h : x ≠ a) :
    (s.store a v).mem x = s.mem x := by
  simp [garbage_collector.store, h]

theorem wadd_of_lt (a b : Nat) (h : a + b < WORD) : wadd a b = a + b := by
  unfold wadd
  exact Nat.mod_eq_of_lt h

theorem field_addr_zero (rt : Runtime) (p : Nat) (h : p + rt.sizeof_stella_object < WORD) :
    field_addr rt p 0 = p + rt.sizeof_stella_object := by
  unfold field_addr wmul
  rw [wadd_of_lt _ _ h]
  simp only [Nat.zero_mul, Nat.zero_mod, wadd, Nat.add_zero]
  exact Nat.mod_eq_of_lt h

theorem object_size_one (rt : Runtime) (header : Nat)
    (hfc : rt.STELLA_OBJECT_HEADER_FIELD_COUNT header = 1)
    (h : rt.sizeof_stella_object + rt.sizeof_pointer < WORD) :
    object_size rt header = rt.sizeof_stella_object + rt.sizeof_pointer := by
  unfold object_size wmul
  rw [hfc, Nat.one_mul]
  have hp : rt.sizeof_pointer < WORD := by omega
  rw [Nat.mod_eq_of_lt hp]
  exact wadd_of_lt _ _ h

theorem points_to_iff (rt : Runtime) (p space : Nat) (h : space + REGION_SIZE rt < WORD) :
    points_to rt p space = true ↔ space ≤ p ∧ p < space + REGION_SIZE rt := by
  unfold points_to
  rw [wadd_of_lt _ _ h]
  simp

theorem points_to_false_iff (rt : Runtime) (p space : Nat)
    (h : space + REGION_SIZE rt < WORD) :
    points_to rt p space = false ↔ ¬ (space ≤ p ∧ p < space + REGION_SIZE rt) := by
  rw [← points_to_iff rt p space h]
  simp

/-- The `for` loop of `chase` on an object with one field: one field is copied, and the
candidate is that field when it points to a to-space object whose field 0 does not point
into from-space. -/
theorem chase_fields_one (rt : Runtime) (n : Nat) (s : garbage_collector) (p q : Nat)
    (hfc : rt.STELLA_OBJECT_HEADER_FIELD_COUNT (s.mem p) = 1)
    (hne : p ≠ field_addr rt q 0) :
    chase_fields rt (n + 2) s p q 0 0
      = some (s.store (field_addr rt q 0) (s.mem (field_addr rt p 0)),
          if points_to rt (s.mem (field_addr rt p 0)) s.to_space_
              && !points_to rt ((s.store (field_addr rt q 0) (s.mem (field_addr rt p 0))).mem
                  (field_addr rt (s.mem (field_addr rt p 0)) 0)) s.from_space_
            then s.mem (field_addr rt p 0) else 0) := by
  have h1 : (s.store (field_addr rt q 0) (s.mem (field_addr rt p 0))).mem p = s.mem p :=
    store_mem_other s _ _ p hne
  rw [chase_fields]
  simp only [hfc, Nat.lt_one_iff, if_true, store_mem_same]
  rw [chase_fields]
  simp only [h1, hfc, Nat.lt_irrefl, if_false]
  rfl

/-- One round of `chase` on an object `p` with one field whose slots are not those of its
copy: the copy is made, and the loop goes on with field 0 of `p` when that is the address
of a to-space object whose field 0 does not point into from-space. -/
theorem chase_one_field (rt : Runtime) (f : Nat) (s : garbage_collector) (p : Nat)
    (hfc : rt.STELLA_OBJECT_HEADER_FIELD_COUNT (s.mem p) = 1)
    (h1 : p ≠ s.next_) (h2 : p ≠ field_addr rt s.next_ 0)
    (h3 : field_addr rt p 0 ≠ s.next_)
    (x : Nat) (hx : s.mem (field_addr rt p 0) = x)
    (h5 : points_to rt x s.to_space_ = true →
      field_addr rt x 0 ≠ s.next_ ∧ field_addr rt x 0 ≠ field_addr rt s.next_ 0) :
    chase rt (f + 2) s p
      = if (points_to rt x s.to_space_
              && !points_to rt (s.mem (field_addr rt x 0)) s.from_space_) = true ∧ x ≠ 0
        then chase rt (f + 1) (chase_copy_one rt s p) x
        else some (chase_copy_one rt s p) := by
  have e3 : ((chase_bump rt s p).store s.next_ (s.mem p)).mem p = s.mem p :=
    store_mem_other _ _ _ p h1
  have e4 : ((chase_bump rt s p).store s.next_ (s.mem p)).mem (field_addr rt p 0) = x := by
    rw [store_mem_other _ _ _ _ h3]
    exact hx
  have hcf := chase_fields_one rt f ((chase_bump rt s p).store s.next_ (s.mem p)) p s.next_
    (by rw [e3]; exact hfc) h2
  rw [e4] at hcf
  rw [chase]
  simp only
  have hs3 : ({ { s with
        current_allocated_bytes_cnt_ :=
          wadd s.current_allocated_bytes_cnt_ (object_size rt (s.mem p))
        current_allocated_objects_cnt_ := wadd s.current_allocated_objects_cnt_ 1 } with
      next_ := wadd s.next_ (object_size rt (s.mem p)) } : garbage_collector)
      = chase_bump rt s p := rfl
  rw [hs3, hcf]
  have ht : ((chase_bump rt s p).store s.next_ (s.mem p)).to_space_ = s.to_space_ := rfl
  have hf : ((chase_bump rt s p).store s.next_ (s.mem p)).from_space_ = s.from_space_ := rfl
  simp only [chase_copy_one, hx, ht, hf]
  by_cases hpt : points_to rt x s.to_space_ = true
  · have e5 : (((chase_bump rt s p).store s.next_ (s.mem p)).store (field_addr rt s.next_ 0)
        x).mem (field_addr rt x 0) = s.mem (field_addr rt x 0) := by
      rw [store_mem_other _ _ _ _ (h5 hpt).2, store_mem_other _ _ _ _ (h5 hpt).1]
      rfl
    rw [e5]
    by_cases hc : points_to rt (s.mem (field_addr rt x 0)) s.from_space_ = true
    · simp [hpt, hc]
    · simp [hpt, hc]
  · simp [hpt]

theorem chase_copy_one_mem (rt : Runtime) (s : garbage_collector) (p y : Nat) :
    (chase_copy_one rt s p).mem y
      = if y = field_addr rt p 0 then s.next_
        else if y = field_addr rt s.next_ 0 then s.mem (field_addr rt p 0)
        else if y = s.next_ then s.mem p else s.mem y := rfl

theorem chain_links_congr (rt : Runtime) (m m1 : Nat → Nat) (v : Nat) :
    ∀ (os : List Nat),
      (∀ o ∈ os, m1 o = m o ∧
        m1 (o + rt.sizeof_stella_object) = m (o + rt.sizeof_stella_object)) →
      chain_links rt m v os → chain_links rt m1 v os := by
  intro os
  induction os with
  | nil => intro _ _; trivial
  | cons o rest ih =>
    intro hagree h
    obtain ⟨h1, h2, h3⟩ := h
    obtain ⟨e1, e2⟩ := hagree o (List.mem_cons_self o rest)
    exact ⟨by rw [e1]; exact h1, by rw [e2]; exact h2,
      ih (fun o1 ho1 => hagree o1 (List.mem_cons_of_mem o ho1)) h3⟩

theorem chain_copied_congr (rt : Runtime) (m0 m1 m : Nat → Nat) (v : Nat) :
    ∀ (os : List Nat) (n : Nat), (∀ o ∈ os, m1 o = m0 o) →
      chain_copied rt m0 m v os n → chain_copied rt m1 m v os n := by
  intro os
  induction os with
  | nil => intro _ _ _; trivial
  | cons o rest ih =>
    intro n hagree h
    obtain ⟨h1, h2, h3, h4⟩ := h
    exact ⟨by rw [hagree o (List.mem_cons_self o rest)]; exact h1, h2, h3,
      ih _ (fun o1 ho1 => hagree o1 (List.mem_cons_of_mem o ho1)) h4⟩

/-- The loop of `chase` on a chain: started on the first object of a well-placed chain with
room for all copies, it returns (given one unit of fuel per object and two to spare in the
first round), `next_` has advanced by the size of the chain, the copies lie one after the
other from the old `next_` on, and memory is changed only in the copy area and in field 0
of the originals. -/
theorem chase_chain (rt : Runtime) (v F T : Nat) (hsp : spaces_apart rt F T)
    (hvT : points_to rt v T = false) (hvF : points_to rt v F = false) :
    ∀ (rest : List Nat) (o : Nat) (s : garbage_collector) (fuel : Nat),
      s.from_space_ = F → s.to_space_ = T →
      chain_placed rt T (o :: rest) → chain_links rt s.mem v (o :: rest) →
      F ≤ s.next_ →
      s.next_ + (rest.length + 1) * (rt.sizeof_stella_object + rt.sizeof_pointer)
        ≤ F + REGION_SIZE rt →
      rest.length + 2 ≤ fuel →
      ∃ t, chase rt fuel s o = some t ∧
        t.next_ = s.next_
          + (rest.length + 1) * (rt.sizeof_stella_object + rt.sizeof_pointer) ∧
        chain_copied rt s.mem t.mem v (o :: rest) s.next_ ∧
        ∀ x, (x < s.next_ ∨ s.next_
            + (rest.length + 1) * (rt.sizeof_stella_object + rt.sizeof_pointer) ≤ x) →
          (∀ o1 ∈ o :: rest, x ≠ o1 + rt.sizeof_stella_object) → t.mem x = s.mem x := by
  obtain ⟨hhs, hps, hdis, hFW, hTW⟩ := hsp
  intro rest
  induction rest with
  | nil =>
    intro o s fuel hF hT hpl hlk hn hfit hfuel
    obtain ⟨f, rfl⟩ : ∃ f, fuel = f + 2 := ⟨fuel - 2, by simp at hfuel; omega⟩
    obtain ⟨hfc, hfld, _⟩ := hlk
    obtain ⟨hpos, hTo, hoT⟩ := hpl.1 o (List.mem_cons_self o [])
    simp only [List.length_nil, Nat.zero_add, Nat.one_mul] at hfit ⊢
    simp only [link_target] at hfld
    have ea : field_addr rt o 0 = o + rt.sizeof_stella_object :=
      field_addr_zero rt o (by omega)
    have en : field_addr rt s.next_ 0 = s.next_ + rt.sizeof_stella_object :=
      field_addr_zero rt s.next_ (by omega)
    have hround := chase_one_field rt f s o hfc (by omega) (by rw [en]; omega)
      (by rw [ea]; omega) v (by rw [ea]; exact hfld)
      (by rw [hT]; intro h; rw [hvT] at h; exact absurd h (by simp))
    rw [hT, hvT] at hround
    simp only [Bool.false_and, Bool.false_eq_true, false_and, if_false] at hround
    refine ⟨chase_copy_one rt s o, hround, ?_, ?_, ?_⟩
    · show wadd s.next_ (object_size rt (s.mem o)) = _
      rw [object_size_one rt _ hfc (by omega)]
      exact wadd_of_lt _ _ (by omega)
    · refine ⟨?_, ?_, ?_, trivial⟩
      · rw [chase_copy_one_mem, ea, en]
        rw [if_neg (by omega), if_neg (by omega), if_pos rfl]
      · rw [chase_copy_one_mem, ea, en]
        rw [if_neg (by omega), if_pos rfl]
        exact hfld
      · rw [chase_copy_one_mem, ea]
        rw [if_pos rfl]
    · intro x hx hxo
      have hxo1 := hxo o (List.mem_cons_self o [])
      rw [chase_copy_one_mem, ea, en]
      rw [if_neg hxo1, if_neg (by omega), if_neg (by omega)]
  | cons o2 rest ih =>
    intro o s fuel hF hT hpl hlk hn hfit hfuel
    obtain ⟨f, rfl⟩ : ∃ f, fuel = f + 2 := ⟨fuel - 2, by simp at hfuel; omega⟩
    obtain ⟨hfc, hfld, hlk2⟩ := hlk
    have hlk2' := hlk2
    obtain ⟨hfc2, hfld2, _⟩ := hlk2'
    obtain ⟨hpos, hTo, hoT⟩ := hpl.1 o (List.mem_cons_self o _)
    obtain ⟨hpos2, hTo2, hoT2⟩ :=
      hpl.1 o2 (List.mem_cons_of_mem o (List.mem_cons_self o2 rest))
    have hpw := List.pairwise_cons.mp hpl.2
    have hap2 := hpw.1 o2 (List.mem_cons_self o2 rest)
    have hmul : ((o2 :: rest).length + 1) * (rt.sizeof_stella_object + rt.sizeof_pointer)
        = (rest.length + 1) * (rt.sizeof_stella_object + rt.sizeof_pointer)
          + (rt.sizeof_stella_object + rt.sizeof_pointer) := by
      simp only [List.length_cons]
      exact Nat.succ_mul _ _
    rw [hmul] at hfit
    simp only [link_target] at hfld
    have ea : field_addr rt o 0 = o + rt.sizeof_stella_object :=
      field_addr_zero rt o (by omega)
    have ea2 : field_addr rt o2 0 = o2 + rt.sizeof_stella_object :=
      field_addr_zero rt o2 (by omega)
    have en : field_addr rt s.next_ 0 = s.next_ + rt.sizeof_stella_object :=
      field_addr_zero rt s.next_ (by omega)
    have hround := chase_one_field rt f s o hfc (by omega) (by rw [en]; omega)
      (by rw [ea]; omega) o2 (by rw [ea]; exact hfld)
      (by intro _; rw [ea2, en]; constructor <;> omega)
    -- the candidate is the next object of the chain
    have hptT : points_to rt o2 T = true := (points_to_iff rt o2 T hTW).mpr ⟨hTo2, by omega⟩
    have htarget : points_to rt (s.mem (field_addr rt o2 0)) F = false := by
      rw [ea2, hfld2]
      cases rest with
      | nil => exact hvF
      | cons o3 rest3 =>
        obtain ⟨_, hTo3, hoT3⟩ := hpl.1 o3
          (List.mem_cons_of_mem o (List.mem_cons_of_mem o2 (List.mem_cons_self o3 rest3)))
        simp only [link_target]
        rw [points_to_false_iff rt o3 F hFW]
        omega
    rw [hT, hF, hptT, htarget] at hround
    simp only [Bool.not_false, Bool.and_self, true_and, ne_eq, ite_not] at hround
    rw [if_neg (by omega)] at hround
    -- the state after the first round
    have hnext5 : (chase_copy_one rt s o).next_
        = s.next_ + (rt.sizeof_stella_object + rt.sizeof_pointer) := by
      show wadd s.next_ (object_size rt (s.mem o)) = _
      rw [object_size_one rt _ hfc (by omega)]
      exact wadd_of_lt _ _ (by omega)
    have hmem5 : ∀ y, y ≠ o + rt.sizeof_stella_object →
        y ≠ s.next_ + rt.sizeof_stella_object → y ≠ s.next_ →
        (chase_copy_one rt s o).mem y = s.mem y := by
      intro y h1 h2 h3
      rw [chase_copy_one_mem, ea, en, if_neg h1, if_neg h2, if_neg h3]
    have hplaced2 : chain_placed rt T (o2 :: rest) :=
      ⟨fun o1 ho1 => hpl.1 o1 (List.mem_cons_of_mem o ho1), hpw.2⟩
    have htail : ∀ o1 ∈ o2 :: rest,
        (chase_copy_one rt s o).mem o1 = s.mem o1 ∧
        (chase_copy_one rt s o).mem (o1 + rt.sizeof_stella_object)
          = s.mem (o1 + rt.sizeof_stella_object) := by
      intro o1 ho1
      obtain ⟨_, hTo1, hoT1⟩ := hpl.1 o1 (List.mem_cons_of_mem o ho1)
      have hap1 := hpw.1 o1 ho1
      constructor
      · exact hmem5 _ (by omega) (by omega) (by omega)
      · exact hmem5 _ (by omega) (by omega) (by omega)
    obtain ⟨t, ht, htn, htc, htf⟩ := ih o2 (chase_copy_one rt s o) (f + 1) hF hT hplaced2
      (chain_links_congr rt s.mem _ v _ htail hlk2) (by rw [hnext5]; omega)
      (by rw [hnext5]; omega) (by simp at hfuel ⊢; omega)
    rw [hnext5] at htn htc htf
    refine ⟨t, by rw [hround]; exact ht, by rw [htn, hmul]; omega, ?_, ?_⟩
    · have hout : ∀ y, y < s.next_ + (rt.sizeof_stella_object + rt.sizeof_pointer) →
          (∀ o1 ∈ o2 :: rest, y ≠ o1 + rt.sizeof_stella_object) →
          t.mem y = (chase_copy_one rt s o).mem y :=
        fun y hy hy2 => htf y (Or.inl hy) hy2
      have hslot : ∀ o1 ∈ o2 :: rest, ∀ y, (s.next_ ≤ y ∧ y < F + REGION_SIZE rt) →
          y ≠ o1 + rt.sizeof_stella_object := by
        intro o1 ho1 y hy
        obtain ⟨_, hTo1, hoT1⟩ := hpl.1 o1 (List.mem_cons_of_mem o ho1)
        omega
      refine ⟨?_, ?_, ?_, ?_⟩
      · rw [hout _ (by omega) (fun o1 ho1 => hslot o1 ho1 _ (by omega))]
        rw [chase_copy_one_mem, ea, en]
        rw [if_neg (by omega), if_neg (by omega), if_pos rfl]
      · rw [hout _ (by omega) (fun o1 ho1 => hslot o1 ho1 _ (by omega))]
        rw [chase_copy_one_mem, ea, en]
        rw [if_neg (by omega), if_pos rfl]
        exact hfld
      · have hfw : t.mem (o + rt.sizeof_stella_object)
            = (chase_copy_one rt s o).mem (o + rt.sizeof_stella_object) := by
          apply htf
          · omega
          · intro o1 ho1
            have hap1 := hpw.1 o1 ho1
            omega
        rw [hfw, chase_copy_one_mem, ea, if_pos rfl]
      · exact chain_copied_congr rt _ s.mem t.mem v _ _
          (fun o1 ho1 => ((htail o1 ho1).1).symm) htc
    · intro x hx hxo
      have hxo0 := hxo o (List.mem_cons_self o _)
      rw [htf x (by rw [hmul] at hx; omega) (fun o1 ho1 => hxo o1 (List.mem_cons_of_mem o ho1))]
      exact hmem5 x hxo0 (by rw [hmul] at hx; omega) (by rw [hmul] at hx; omega)

/-- Objects of size `sz` that lie inside one space without overlapping take no more room
than the space has. -/
theorem placed_room (sz space R : Nat) (hsz : 0 < sz) (os : List Nat)
    (hin : ∀ o ∈ os, space ≤ o ∧ o + sz ≤ space + R)
    (hap : os.Pairwise (fun a b => a + sz ≤ b ∨ b + sz ≤ a)) : os.length * sz ≤ R := by
  have hstep : ∀ a b, space ≤ a → a + sz ≤ b → (a - space) / sz ≠ (b - space) / sz := by
    intro a b ha hab heq
    have h1 : ((a - space) + sz) / sz ≤ (b - space) / sz :=
      Nat.div_le_div_right (by omega)
    rw [Nat.add_div_right _ hsz] at h1
    omega
  have hnd : (os.map (fun o => (o - space) / sz)).Nodup := by
    unfold List.Nodup
    rw [List.pairwise_map]
    refine List.Pairwise.imp_of_mem ?_ hap
    intro a b ha hb h
    rcases h with h | h
    · exact hstep a b (hin a ha).1 h
    · exact fun e => hstep b a (hin b hb).1 h e.symm
  have hsub : os.map (fun o => (o - space) / sz) ⊆ List.range (R / sz) := by
    intro x hx
    obtain ⟨o, ho, rfl⟩ := List.mem_map.mp hx
    rw [List.mem_range]
    have h1 : ((o - space) + sz) / sz ≤ R / sz :=
      Nat.div_le_div_right (by have := hin o ho; omega)
    rw [Nat.add_div_right _ hsz] at h1
    omega
  have hlen := (List.subperm_of_subset hnd hsub).length_le
  rw [List.length_map, List.length_range] at hlen
  calc os.length * sz ≤ R / sz * sz := Nat.mul_le_mul_right sz hlen
    _ ≤ R := Nat.div_mul_le_self R sz

theorem chain_copied_store (rt : Runtime) (m0 m : Nat → Nat) (v a b : Nat)
    (hhs : 0 < rt.sizeof_stella_object) (hps : 0 < rt.sizeof_pointer) :
    ∀ (os : List Nat) (n : Nat),
      (a < n ∨ n + os.length * (rt.sizeof_stella_object + rt.sizeof_pointer) ≤ a) →
      (∀ o ∈ os, a ≠ o + rt.sizeof_stella_object) →
      chain_copied rt m0 m v os n →
      chain_copied rt m0 (fun y => if y = a then b else m y) v os n := by
  intro os
  induction os with
  | nil => intro _ _ _ _; trivial
  | cons o rest ih =>
    intro n ha hao h
    obtain ⟨h1, h2, h3, h4⟩ := h
    have hmul : (o :: rest).length * (rt.sizeof_stella_object + rt.sizeof_pointer)
        = rest.length * (rt.sizeof_stella_object + rt.sizeof_pointer)
          + (rt.sizeof_stella_object + rt.sizeof_pointer) := by
      simp only [List.length_cons]
      exact Nat.succ_mul _ _
    rw [hmul] at ha
    refine ⟨?_, ?_, ?_, ih _ (by omega) (fun o1 ho1 => hao o1 (List.mem_cons_of_mem o ho1)) h4⟩
    · show (if n = a then b else m n) = m0 o
      rw [if_neg (by omega)]
      exact h1
    · show (if n + rt.sizeof_stella_object = a then b else m (n + rt.sizeof_stella_object)) = _
      rw [if_neg (by omega)]
      exact h2
    · show (if o + rt.sizeof_stella_object = a then b else m (o + rt.sizeof_stella_object)) = n
      rw [if_neg (fun e => hao o (List.mem_cons_self o rest) e.symm)]
      exact h3

/-- The read barrier on field 0 of a from-space object whose field 0 holds `x`, when
`forward(x)` needs no copy and returns `y`: the field is set to `y` and one read is
counted. -/
theorem read_barrier_no_copy (rt : Runtime) (fuel : Nat) (s : garbage_collector)
    (q x y : Nat) (hx : s.mem (field_addr rt q 0) = x)
    (hy : (points_to rt x s.to_space_ = false ∧ y = x) ∨
      (points_to rt x s.to_space_ = true ∧
        points_to rt (s.mem (field_addr rt x 0)) s.from_space_ = true ∧
        y = s.mem (field_addr rt x 0))) :
    read_barrier rt fuel s q 0
      = some (({ s with reads_cnt_ := wadd s.reads_cnt_ 1 } : garbage_collector).store
          (field_addr rt q 0) y) := by
  unfold read_barrier forward
  simp only
  rw [hx]
  rcases hy with ⟨h1, rfl⟩ | ⟨h1, h2, rfl⟩
  · simp [h1]
  · simp [h1, h2]

/-- The read barrier on field 0 of each copy of a chain in turn: every call returns, no
object is copied, and field 0 of each copy is left holding the address of the next copy
(`v` for the last). Memory outside the copy area is unchanged. -/
theorem read_chain_relinks (rt : Runtime) (m0 : Nat → Nat) (v F T : Nat)
    (hsp : spaces_apart rt F T) (hvT : points_to rt v T = false) (fuel : Nat) :
    ∀ (os : List Nat) (n : Nat) (s : garbage_collector),
      s.from_space_ = F → s.to_space_ = T →
      chain_placed rt T os → chain_copied rt m0 s.mem v os n →
      F ≤ n →
      n + os.length * (rt.sizeof_stella_object + rt.sizeof_pointer) ≤ F + REGION_SIZE rt →
      ∃ u, read_chain rt fuel os.length s n
            (rt.sizeof_stella_object + rt.sizeof_pointer) = some u ∧
        chain_relinked rt m0 u.mem v os n ∧
        (∀ y, (y < n ∨
            n + os.length * (rt.sizeof_stella_object + rt.sizeof_pointer) ≤ y) →
          u.mem y = s.mem y) ∧
        u.next_ = s.next_ ∧ u.from_space_ = F ∧ u.to_space_ = T := by
  obtain ⟨hhs, hps, hdis, hFW, hTW⟩ := hsp
  intro os
  induction os with
  | nil =>
    intro n s hF hT _ _ _ _
    exact ⟨s, rfl, trivial, fun _ _ => rfl, rfl, hF, hT⟩
  | cons o rest ih =>
    intro n s hF hT hpl hcp hn hfit
    obtain ⟨h1, h2, h3, h4⟩ := hcp
    have hpw := List.pairwise_cons.mp hpl.2
    have hplaced2 : chain_placed rt T rest :=
      ⟨fun o1 ho1 => hpl.1 o1 (List.mem_cons_of_mem o ho1), hpw.2⟩
    have hmul : (o :: rest).length * (rt.sizeof_stella_object + rt.sizeof_pointer)
        = rest.length * (rt.sizeof_stella_object + rt.sizeof_pointer)
          + (rt.sizeof_stella_object + rt.sizeof_pointer) := by
      simp only [List.length_cons]
      exact Nat.succ_mul _ _
    rw [hmul] at hfit
    have en : field_addr rt n 0 = n + rt.sizeof_stella_object :=
      field_addr_zero rt n (by omega)
    obtain ⟨s1, hs1⟩ : ∃ s1 : garbage_collector,
        s1 = ({ s with reads_cnt_ := wadd s.reads_cnt_ 1 } : garbage_collector).store
            (n + rt.sizeof_stella_object)
            (if rest = [] then v
              else n + (rt.sizeof_stella_object + rt.sizeof_pointer)) := ⟨_, rfl⟩
    have hs1mem : ∀ y, s1.mem y = if y = n + rt.sizeof_stella_object
        then (if rest = [] then v else n + (rt.sizeof_stella_object + rt.sizeof_pointer))
        else s.mem y := by
      intro y
      rw [hs1]
      rfl
    have hrb : read_barrier rt fuel s n 0 = some s1 := by
      rw [hs1, ← en]
      refine read_barrier_no_copy rt fuel s n (link_target v rest) _ (by rw [en]; exact h2) ?_
      cases rest with
      | nil =>
        left
        exact ⟨by rw [hT]; exact hvT, rfl⟩
      | cons o2 rest2 =>
        right
        obtain ⟨_, hTo2, hoT2⟩ := hpl.1 o2 (List.mem_cons_of_mem o (List.mem_cons_self o2 _))
        obtain ⟨_, _, h3b, _⟩ := h4
        have ea2 : field_addr rt o2 0 = o2 + rt.sizeof_stella_object :=
          field_addr_zero rt o2 (by omega)
        have hlen : (o2 :: rest2).length * (rt.sizeof_stella_object + rt.sizeof_pointer)
            = rest2.length * (rt.sizeof_stella_object + rt.sizeof_pointer)
              + (rt.sizeof_stella_object + rt.sizeof_pointer) := by
          simp only [List.length_cons]
          exact Nat.succ_mul _ _
        rw [hlen] at hfit
        simp only [link_target]
        refine ⟨?_, ?_, ?_⟩
        · rw [hT]
          exact (points_to_iff rt o2 T hTW).mpr ⟨hTo2, by omega⟩
        · rw [ea2, h3b, hF]
          exact (points_to_iff rt _ F hFW).mpr ⟨by omega, by omega⟩
        · rw [ea2, h3b]
          simp
    have hcp2 : chain_copied rt m0 s1.mem v rest
        (n + (rt.sizeof_stella_object + rt.sizeof_pointer)) := by
      have hfun : s1.mem = fun y => if y = n + rt.sizeof_stella_object
          then (if rest = [] then v else n + (rt.sizeof_stella_object + rt.sizeof_pointer))
          else s.mem y := funext hs1mem
      rw [hfun]
      refine chain_copied_store rt m0 s.mem v _ _ hhs hps rest _ (by omega) ?_ h4
      intro o1 ho1
      obtain ⟨_, hTo1, hoT1⟩ := hpl.1 o1 (List.mem_cons_of_mem o ho1)
      omega
    obtain ⟨u, hu, hrel, hframe, hunext, huF, huT⟩ :=
      ih (n + (rt.sizeof_stella_object + rt.sizeof_pointer)) s1 (by rw [hs1]; exact hF)
        (by rw [hs1]; exact hT) hplaced2 hcp2 (by omega) (by omega)
    have hs1next : s1.next_ = s.next_ := by rw [hs1]; rfl
    rw [hs1next] at hunext
    refine ⟨u, ?_, ⟨?_, ?_, hrel⟩, ?_, hunext, huF, huT⟩
    · simp only [List.length_cons, read_chain]
      rw [hrb]
      exact hu
    · rw [hframe n (by omega), hs1mem, if_neg (by omega)]
      exact h1
    · rw [hframe _ (by omega), hs1mem, if_pos rfl]
    · intro y hy
      rw [hmul] at hy
      rw [hframe y (by omega), hs1mem, if_neg (by omega)]

/-- The recursive description of the relinked copies, read by position: the copy number
`j` lies at `n + j * sz`, has the header of the object number `j` of the chain, and its
field 0 holds the address of the copy number `j + 1` (`v` for the last). -/
theorem chain_relinked_get (rt : Runtime) (m0 m : Nat → Nat) (v : Nat) :
    ∀ (os : List Nat) (n : Nat), chain_relinked rt m0 m v os n →
      ∀ (j : Nat) (hj : j < os.length),
        m (n + j * (rt.sizeof_stella_object + rt.sizeof_pointer)) = m0 (os.get ⟨j, hj⟩) ∧
        m (n + j * (rt.sizeof_stella_object + rt.sizeof_pointer) + rt.sizeof_stella_object)
          = (if j + 1 < os.length
              then n + (j + 1) * (rt.sizeof_stella_object + rt.sizeof_pointer) else v) := by
  intro os
  induction os with
  | nil => intro n _ j hj; exact absurd hj (by simp)
  | cons o rest ih =>
    intro n h j hj
    obtain ⟨h1, h2, h3⟩ := h
    cases j with
    | zero =>
      simp only [Nat.zero_mul, Nat.add_zero, List.get_cons_zero, Nat.zero_add, Nat.one_mul,
        List.length_cons]
      refine ⟨h1, ?_⟩
      rw [h2]
      cases rest with
      | nil => simp
      | cons o2 r2 => simp
    | succ k =>
      have hk : k < rest.length := by simpa using hj
      obtain ⟨e1, e2⟩ := ih _ h3 k hk
      have a1 : n + (k + 1) * (rt.sizeof_stella_object + rt.sizeof_pointer)
          = n + (rt.sizeof_stella_object + rt.sizeof_pointer)
            + k * (rt.sizeof_stella_object + rt.sizeof_pointer) := by
        rw [Nat.succ_mul]; omega
      have a2 : n + (k + 1 + 1) * (rt.sizeof_stella_object + rt.sizeof_pointer)
          = n + (rt.sizeof_stella_object + rt.sizeof_pointer)
            + (k + 1) * (rt.sizeof_stella_object + rt.sizeof_pointer) := by
        rw [Nat.succ_mul (k + 1)]; omega
      rw [a1, a2]
      refine ⟨by rw [e1]; rfl, ?_⟩
      rw [e2]
      simp only [List.length_cons, Nat.add_lt_add_iff_right]

theorem chain_copied_get (rt : Runtime) (m0 m : Nat → Nat) (v : Nat) :
    ∀ (os : List Nat) (n : Nat), chain_copied rt m0 m v os n →
      ∀ (j : Nat) (hj : j < os.length),
        m (n + j * (rt.sizeof_stella_object + rt.sizeof_pointer)) = m0 (os.get ⟨j, hj⟩) := by
  intro os
  induction os with
  | nil => intro n _ j hj; exact absurd hj (by simp)
  | cons o rest ih =>
    intro n h j hj
    obtain ⟨h1, _, _, h4⟩ := h
    cases j with
    | zero => simpa using h1
    | succ k =>
      have hk : k < rest.length := by simpa using hj
      have e1 := ih _ h4 k hk
      have a1 : n + (k + 1) * (rt.sizeof_stella_object + rt.sizeof_pointer)
          = n + (rt.sizeof_stella_object + rt.sizeof_pointer)
            + k * (rt.sizeof_stella_object + rt.sizeof_pointer) := by
        rw [Nat.succ_mul]; omega
      rw [a1, e1]
      rfl

/-- C15, chain forwarding: for every chain of `k >= 1` one-field objects linked through
field 0 (the last field holding a value `v` that points into neither space), lying in the
current space without overlap, with one root slot outside the heap holding the first
object, and the two spaces disjoint blocks of pointer values: `collect` returns (with
`k + 1` units of fuel), from-space is the former to-space, `next_` is
`from_space_ + k * (header + pointer size)`, the root holds `from_space_`, and copy number
`j` lies at `from_space_ + j * size` with the header of object number `j`; the read barrier
on field 0 of each copy in turn then returns and leaves field 0 of copy `j` holding the
address of copy `j + 1` (and `v` in the last copy). -/
theorem collect_chain (rt : Runtime) (s : garbage_collector) (root v o : Nat)
    (rest : List Nat) (fuel : Nat)
    (hsp : spaces_apart rt s.to_space_ s.from_space_)
    (hroots : s.roots_ = [root]) (hroot : s.mem root = o)
    (hrout : (root < s.to_space_ ∨ s.to_space_ + REGION_SIZE rt ≤ root) ∧
      (root < s.from_space_ ∨ s.from_space_ + REGION_SIZE rt ≤ root))
    (hpl : chain_placed rt s.from_space_ (o :: rest))
    (hlk : chain_links rt s.mem v (o :: rest))
    (hvT : points_to rt v s.from_space_ = false) (hvF : points_to rt v s.to_space_ = false)
    (hfuel : rest.length + 2 ≤ fuel) :
    ∃ t u, collect rt fuel s = some t ∧
      t.from_space_ = s.to_space_ ∧
      t.next_ = t.from_space_
        + (rest.length + 1) * (rt.sizeof_stella_object + rt.sizeof_pointer) ∧
      t.mem root = t.from_space_ ∧
      (∀ (j : Nat) (hj : j < (o :: rest).length),
        t.mem (t.from_space_ + j * (rt.sizeof_stella_object + rt.sizeof_pointer))
          = s.mem ((o :: rest).get ⟨j, hj⟩)) ∧
      read_chain rt fuel (rest.length + 1) t t.from_space_
        (rt.sizeof_stella_object + rt.sizeof_pointer) = some u ∧
      (∀ (j : Nat) (hj : j < (o :: rest).length),
        u.mem (t.from_space_ + j * (rt.sizeof_stella_object + rt.sizeof_pointer))
          = s.mem ((o :: rest).get ⟨j, hj⟩) ∧
        u.mem (field_addr rt
            (t.from_space_ + j * (rt.sizeof_stella_object + rt.sizeof_pointer)) 0)
          = (if j + 1 < (o :: rest).length
              then t.from_space_
                + (j + 1) * (rt.sizeof_stella_object + rt.sizeof_pointer)
              else v)) := by
  have hsp' := hsp
  obtain ⟨hhs, hps, hdis, hFW, hTW⟩ := hsp'
  have hroom : (o :: rest).length * (rt.sizeof_stella_object + rt.sizeof_pointer)
      ≤ REGION_SIZE rt :=
    placed_room _ s.from_space_ _ (by omega) _ (fun o1 ho1 => (hpl.1 o1 ho1).2) hpl.2
  have hlen : (o :: rest).length = rest.length + 1 := List.length_cons o rest
  rw [hlen] at hroom
  -- the copy loop, started in the state right after the swap
  obtain ⟨t0, hchase, hnext0, hcopied0, hframe0⟩ :=
    chase_chain rt v s.to_space_ s.from_space_ hsp hvT hvF rest o (collect_flip rt s) fuel
      rfl rfl hpl hlk (Nat.le_refl _) (by show s.to_space_ + _ ≤ _; omega) hfuel
  have hfr := chase_frame rt _ _ _ _ hchase
  have hnext0' : t0.next_ = s.to_space_
      + (rest.length + 1) * (rt.sizeof_stella_object + rt.sizeof_pointer) := hnext0
  have hcopied0' : chain_copied rt s.mem t0.mem v (o :: rest) s.to_space_ := hcopied0
  obtain ⟨hpos, hTo, hoT⟩ := hpl.1 o (List.mem_cons_self o rest)
  have ea : field_addr rt o 0 = o + rt.sizeof_stella_object :=
    field_addr_zero rt o (by omega)
  have hfw : forward rt fuel (collect_flip rt s) o = some (t0, s.to_space_) := by
    have h1 : points_to rt o (collect_flip rt s).to_space_ = true :=
      (points_to_iff rt o s.from_space_ hTW).mpr ⟨hTo, by omega⟩
    have h2 : points_to rt ((collect_flip rt s).mem (field_addr rt o 0))
        (collect_flip rt s).from_space_ = false := by
      rw [ea]
      show points_to rt (s.mem (o + rt.sizeof_stella_object)) s.to_space_ = false
      rw [hlk.2.1]
      cases rest with
      | nil => exact hvF
      | cons o2 rest2 =>
        obtain ⟨_, hTo2, hoT2⟩ :=
          hpl.1 o2 (List.mem_cons_of_mem o (List.mem_cons_self o2 rest2))
        simp only [link_target]
        rw [points_to_false_iff rt o2 _ hFW]
        omega
    unfold forward
    rw [if_pos h1, h2]
    simp only [Bool.false_eq_true, if_false]
    rw [hchase, ea]
    simp only
    rw [hcopied0'.2.2.1]
  have hcollect : collect rt fuel s = some (t0.store root s.to_space_) := by
    rw [collect_eq]
    have hr : (collect_flip rt s).roots_ = [root] := hroots
    rw [hr]
    simp only [forward_roots]
    have hm : (collect_flip rt s).mem root = o := hroot
    rw [hm, hfw]
  have hcopied : chain_copied rt s.mem (t0.store root s.to_space_).mem v (o :: rest)
      s.to_space_ := by
    refine chain_copied_store rt s.mem t0.mem v root s.to_space_ hhs hps (o :: rest) _ ?_ ?_
      hcopied0'
    · rw [hlen]
      rcases hrout.1 with h | h
      · exact Or.inl h
      · exact Or.inr (by omega)
    · intro o1 ho1
      obtain ⟨_, hTo1, hoT1⟩ := hpl.1 o1 ho1
      have := hrout.2
      omega
  have hfit : s.to_space_
      + (o :: rest).length * (rt.sizeof_stella_object + rt.sizeof_pointer)
      ≤ s.to_space_ + REGION_SIZE rt := by
    rw [hlen]; omega
  obtain ⟨u, hu, hrel, _, _, _, _⟩ :=
    read_chain_relinks rt s.mem v s.to_space_ s.from_space_ hsp hvT fuel (o :: rest)
      s.to_space_ (t0.store root s.to_space_) hfr.from_space_ hfr.to_space_ hpl hcopied
      (Nat.le_refl _) hfit
  have htF : (t0.store root s.to_space_).from_space_ = s.to_space_ := hfr.from_space_
  refine ⟨t0.store root s.to_space_, u, hcollect, htF, ?_, ?_, ?_, ?_, ?_⟩
  · rw [htF]
    exact hnext0'
  · rw [htF]
    exact store_mem_same _ _ _
  · rw [htF]
    exact chain_copied_get rt s.mem _ v _ _ hcopied
  · rw [htF, ← hlen]
    exact hu
  · rw [htF]
    intro j hj
    obtain ⟨e1, e2⟩ := chain_relinked_get rt s.mem u.mem v _ _ hrel j hj
    refine ⟨e1, ?_⟩
    have hj1 : (j + 1) * (rt.sizeof_stella_object + rt.sizeof_pointer)
        ≤ (rest.length + 1) * (rt.sizeof_stella_object + rt.sizeof_pointer) :=
      Nat.mul_le_mul_right _ (by rw [hlen] at hj; omega)
    rw [Nat.succ_mul] at hj1
    rw [field_addr_zero rt _ (by omega)]
    exact e2

/-- Witness for C15: the chain `A -> B -> C` of scenario 4 (`chain3`), with 4 units of
fuel. -/
theorem collect_chain_witness :
    ∃ t u, collect rt64 4 chain3 = some t ∧
      t.from_space_ = chain3.to_space_ ∧
      t.next_ = t.from_space_
        + ([4128, 4112].length + 1) * (rt64.sizeof_stella_object + rt64.sizeof_pointer) ∧
      t.mem 512 = t.from_space_ ∧
      (∀ (j : Nat) (hj : j < (4144 :: [4128, 4112]).length),
        t.mem (t.from_space_ + j * (rt64.sizeof_stella_object + rt64.sizeof_pointer))
          = chain3.mem ((4144 :: [4128, 4112]).get ⟨j, hj⟩)) ∧
      read_chain rt64 4 ([4128, 4112].length + 1) t t.from_space_
        (rt64.sizeof_stella_object + rt64.sizeof_pointer) = some u ∧
      (∀ (j : Nat) (hj : j < (4144 :: [4128, 4112]).length),
        u.mem (t.from_space_ + j * (rt64.sizeof_stella_object + rt64.sizeof_pointer))
          = chain3.mem ((4144 :: [4128, 4112]).get ⟨j, hj⟩) ∧
        u.mem (field_addr rt64
            (t.from_space_ + j * (rt64.sizeof_stella_object + rt64.sizeof_pointer)) 0)
          = (if j + 1 < (4144 :: [4128, 4112]).length
              then t.from_space_
                + (j + 1) * (rt64.sizeof_stella_object + rt64.sizeof_pointer)
              else 7)) :=
  collect_chain rt64 chain3 512 7 4144 [4128, 4112] 4
    (by unfold spaces_apart; decide) rfl rfl (by decide)
    (by unfold chain_placed; decide)
    ⟨rfl, rfl, rfl, rfl, rfl, rfl, trivial⟩ rfl rfl (by decide)

/-- C17, the incremental step, does not hold on the code. `crowded` is a state every call
reached by returning normally: the pointers are ordered (`from_space_ = scan_ = 4096`,
`next_ = 4336`, `limit_ = 4368`, end of from-space 4384), the fourteen copies made by
`collect` fill `[4096, 4336)` (with the new object, 15 current objects of 256 bytes), and
the only to-space objects not yet copied are `b1` at 4448 and `b2` at 4432, 16 bytes each,
for which the gap `[4336, 4368)` of 32 bytes has room.
One call of `incremental_forward` returns with `scan_ = 4368`, sixteen objects further, and
`next_ = 4400`: `chase` takes each of `b1`, `b2` as its own next candidate and copies it
twice, never comparing `next_` with `limit_`, so the second copy of `b2` lands at 4384, the
base of to-space, and field 1 of the first processed object, 4096, is left holding 4384,
a pointer into to-space. -/
theorem incremental_forward_leaves_to_space_pointer :
    crowded.map (fun s => (pointers s, s.to_space_, root_view rt288 s 512))
      = some ((4096, 4096, 4336, 4368), 4384, (4096, 48, 4448, 4432)) ∧
    crowded.map (fun s => (s.mem 4448, s.mem (field_addr rt288 4448 0),
        s.mem 4432, s.mem (field_addr rt288 4432 0)))
      = some (16, 4448, 16, 4432) ∧
    crowded.map cycle_counters = some (2, 256, 15) ∧
    (crowded.bind (incremental_forward rt288 20)).map
        (fun s => (pointers s, s.to_space_, root_view rt288 s 512))
      = some ((4096, 4368, 4400, 4368), 4384, (4096, 48, 4352, 4384)) ∧
    (crowded.bind (incremental_forward rt288 20)).map
        (fun s => points_to rt288 (s.mem (field_addr rt288 4096 1)) s.to_space_)
      = some true :=
  ⟨by decide, by decide, by decide, by decide, by decide⟩

end Stella
